import Mathlib

/-!
# DNS-over-TLS stream framing (`dnsovertls.c`) and client callbacks (`libevent-cb.h`)

A shallow embedding of the length-prefixed stream reassembly of
`src/dnsovertls.c` / `src/dnsovertls.h`, and of the client teardown and the
echo callback of `src/libevent-cb.h`, and theorems about them.

Modelling conventions

* An octet is a `Nat`; a `char *` block is a `List Nat`, a possibly-NULL
  pointer to a block is an `Option (List Nat)`.
* `size_t` values are `Nat`; the one subtraction of the reader that could wrap
  (`expected_octets - query_len`) is `size_sub`, which wraps modulo `2^64`.
* The C library calls `realloc`, `memset`, `memcpy` are modelled on blocks, as
  glibc implements them: `realloc` of a block to size 0 frees it and returns
  NULL, which the reader takes for a failed allocation and answers with `die`.
  Running out of memory is not modelled.
* A run of the reader ends in an `outcome`: it runs on (`ok`), it calls `die`
  (`died`), or it copies through NULL or past the end of the query block
  (`faulted`, behaviour undefined).
* The `while` loops of `dnsovertls_read` and `do_libevent_echo` are iterated
  with explicit fuel and yield `none` when the fuel runs out before the loop
  condition fails.
* Calls into libevent, the C library and the TLS helper that release or send
  something are recorded as traces, in program order.
-/

namespace DnsOverTls

/-- Status of the DNS stream of one client (`dnsovertls_status_t`). -/
inductive dnsovertls_status_t where
  | DNSOVERTLS_WAITING_LEN1
  | DNSOVERTLS_WAITING_LEN2
  | DNSOVERTLS_WAITING_QUERY
  | DNSOVERTLS_PROCESS_QUERY
  | DNSOVERTLS_ERROR
  deriving DecidableEq, Repr

open dnsovertls_status_t

/-- The struct `dm_query_t`. The function pointer `packet_write` and the
`SSL *` are opaque handles. -/
structure dm_query_t where
  query : Option (List Nat)
  query_len : Nat
  packet_write : Nat
  ssl : Nat
  status : dnsovertls_status_t
  expected_octets : Nat
  len1 : Nat
  len2 : Nat
  deriving DecidableEq, Repr

/-- Number of values of a `size_t` (64-bit). -/
def SIZE_MOD : Nat := 18446744073709551616

/-- Subtraction of two `size_t` values: wraps around when `b > a`. -/
def size_sub (a b : Nat) : Nat :=
  if b ≤ a then a - b else a + SIZE_MOD - b

/-- The value of `sizeof(*p_dm_query->query)`, that is `sizeof(char)`. -/
def sizeof_char : Nat := 1

/-- The block a successful `realloc(ptr, size)` returns: exactly `size` bytes
that keep the old block's bytes up to the smaller of the two sizes; the bytes
of newly obtained memory are unspecified and are supplied by `junk` (by
position). -/
def resized (junk : Nat → Nat) (ptr : Option (List Nat)) (size : Nat) : List Nat :=
  let old := ptr.getD []
  old.take size ++ (List.range (size - old.length)).map (fun i => junk (old.length + i))

/-- The call `realloc(ptr, size)` as glibc implements it. With `ptr` NULL it is
`malloc(size)` and returns a block, also for `size = 0`. With a block and
`size = 0` it frees the block and returns NULL. Otherwise it returns the
resized block. Running out of memory is not modelled. -/
def realloc (junk : Nat → Nat) (ptr : Option (List Nat)) (size : Nat) : Option (List Nat) :=
  match ptr with
  | none => some (resized junk none size)
  | some old => if size = 0 then none else some (resized junk (some old) size)

/-- The call `memset(s, c, n)` on a block: the first `n` bytes become `c`. The
reader calls it with `n = sizeof(char)`; on a block of size 0, which glibc
backs with a chunk of at least 16 usable bytes, that one byte lands in the
chunk's slack and no byte of the block changes (`memset_overrun` counts the
bytes written there). -/
def memset (s : List Nat) (c n : Nat) : List Nat :=
  List.replicate (min n s.length) c ++ s.drop n

/-- The number of bytes `memset(s, c, n)` writes past the last byte of the
block `s`, into the slack of its chunk. -/
def memset_overrun (s : List Nat) (n : Nat) : Nat :=
  n - s.length

/-- The call `memcpy(dest + off, src, n)` where `src` lists the `n` source
bytes: they overwrite the bytes of `dest` from offset `off` on. -/
def memcpy (dest : List Nat) (off : Nat) (src : List Nat) : List Nat :=
  (dest.take off ++ src ++ dest.drop (off + src.length)).take dest.length

/-- The function `dm_query_reset`: clears the status fields and runs
`memset(query, 0, sizeof(*query))` when `query` is not NULL. -/
def dm_query_reset (p : dm_query_t) : dm_query_t :=
  { p with
    status := DNSOVERTLS_WAITING_LEN1
    query_len := 0
    expected_octets := 0
    len1 := 0
    len2 := 0
    query := p.query.map (fun q => memset q 0 sizeof_char) }

/-- The function `dm_query_new`: `mem` is the struct as `malloc` returned it.
The source never initialises `query`, so a leftover value that is not NULL
points to memory the struct does not own, and `dm_query_reset` writes through
it: behaviour undefined, no struct is created (`none`). With a leftover NULL
the struct is reset and returned. -/
def dm_query_new (mem : dm_query_t) (ssl : Nat) : Option dm_query_t :=
  match mem.query with
  | none => some { dm_query_reset mem with ssl := ssl }
  | some _ => none

/-- The values `dnsovertls_write` computes and prints, and its return value. -/
structure write_result where
  temp : Nat
  len1 : Nat
  len2 : Nat
  ret : Nat
  deriving DecidableEq, Repr

/-- The function `dnsovertls_write`: `temp` is `(unsigned int)response_len`,
`len2 = (unsigned char)(temp & 0xff)`, `len1 = (unsigned char)(temp>>8 & 0xff)`;
every write to the transport is commented out in the source and it returns 1. -/
def dnsovertls_write (_response : List Nat) (response_len : Nat) : write_result :=
  let temp := response_len % 4294967296
  let len2 := (temp &&& 0xff) % 256
  let len1 := ((temp >>> 8) &&& 0xff) % 256
  { temp := temp, len1 := len1, len2 := len2, ret := 1 }

/-- Local state of one run of `dnsovertls_read`: the struct behind
`p_dm_query`, the counters `octets_read` and `octets_available`, and two
observation traces: the structs handed to `dm_worker` and the octets read out
of `buf`, each in program order. -/
structure read_state where
  p_dm_query : dm_query_t
  octets_read : Nat
  octets_available : Nat
  dispatched : List dm_query_t
  consumed : List Nat
  deriving DecidableEq, Repr

/-- Modelled from the spec: `dm_worker` is called by `dnsovertls_read` but is
not defined in the sources at hand. The message-dispatch collaborator receives
one complete message and does not keep or change the input; the call is
recorded in the trace of dispatched structs. -/
def dm_worker (s : read_state) : read_state :=
  { s with dispatched := s.dispatched ++ [s.p_dm_query] }

/-- The message a dispatched struct carries: the first `query_len` bytes of its
`query` block. -/
def message (p : dm_query_t) : List Nat :=
  (p.query.getD []).take p.query_len

/-- How a run of the reader's code ends, with the local state at that point:
`ok` when it runs on to the end, `died` when it calls `die`, `faulted` when it
copies through NULL or past the end of the query block. -/
inductive outcome where
  | ok (s : read_state)
  | died (s : read_state)
  | faulted (s : read_state)
  deriving DecidableEq, Repr

/-- The local state an outcome carries. -/
def outcome.state : outcome → read_state
  | outcome.ok s => s
  | outcome.died s => s
  | outcome.faulted s => s

/-- Modelled from the spec: `die` is called by the reader but is not defined in
the sources at hand. An allocation failure is fatal to the process: the run
ends there. -/
def die (s : read_state) : outcome :=
  outcome.died s

/-- The `n` bytes from offset `off` on lie inside the block `query` points to
(or there is nothing to write). -/
def writable (query : Option (List Nat)) (off n : Nat) : Prop :=
  n = 0 ∨ off + n ≤ (query.map List.length).getD 0

instance (query : Option (List Nat)) (off n : Nat) : Decidable (writable query off n) := by
  unfold writable
  exact inferInstance

/-- First `if` of the loop body: the most significant length octet. -/
def step_len1 (buf : List Nat) (s : read_state) : read_state :=
  if 0 < s.octets_available ∧ s.p_dm_query.status = DNSOVERTLS_WAITING_LEN1 then
    { s with
      p_dm_query :=
        { s.p_dm_query with
          len1 := buf.getD s.octets_read 0 % 256
          status := DNSOVERTLS_WAITING_LEN2 }
      octets_read := s.octets_read + 1
      octets_available := s.octets_available - 1
      consumed := s.consumed ++ [buf.getD s.octets_read 0] }
  else s

/-- Second `if` of the loop body: the least significant length octet, the
computation of `expected_octets`, and the sizing of the query block. When
`realloc` returns NULL the source calls `die`; the struct then has the new
`len2`, `expected_octets`, `query_len` and `status`, and `query` still holds
the pointer `realloc` was given, to a block that is freed by then. -/
def step_len2 (junk : Nat → Nat) (buf : List Nat) (s : read_state) : outcome :=
  if 0 < s.octets_available ∧ s.p_dm_query.status = DNSOVERTLS_WAITING_LEN2 then
    let len2 := buf.getD s.octets_read 0 % 256
    let expected_octets := (s.p_dm_query.len1 <<< 8) + len2
    let s1 : read_state :=
      { s with
        p_dm_query :=
          { s.p_dm_query with
            len2 := len2
            expected_octets := expected_octets
            query_len := 0
            status := DNSOVERTLS_WAITING_QUERY }
        octets_read := s.octets_read + 1
        octets_available := s.octets_available - 1
        consumed := s.consumed ++ [buf.getD s.octets_read 0] }
    match realloc junk s.p_dm_query.query expected_octets with
    | none => die s1
    | some p_tmp =>
      outcome.ok
        { s1 with
          p_dm_query := { s1.p_dm_query with query := some (memset p_tmp 0 sizeof_char) } }
  else outcome.ok s

/-- Third `if` of the loop body: copy as many octets as are needed, or as are
available when fewer. The source copies through `query + query_len` without a
check: when the octets to copy do not lie inside the block `query` points to,
the run is `faulted`. -/
def step_query (buf : List Nat) (s : read_state) : outcome :=
  if 0 < s.octets_available ∧ s.p_dm_query.status = DNSOVERTLS_WAITING_QUERY then
    let octets_needed := size_sub s.p_dm_query.expected_octets s.p_dm_query.query_len
    let octets_to_copy :=
      if octets_needed < s.octets_available then octets_needed else s.octets_available
    let src := (buf.drop s.octets_read).take octets_to_copy
    if writable s.p_dm_query.query s.p_dm_query.query_len octets_to_copy then
      outcome.ok
        { s with
          p_dm_query :=
            { s.p_dm_query with
              query := s.p_dm_query.query.map (fun q => memcpy q s.p_dm_query.query_len src)
              query_len := s.p_dm_query.query_len + octets_to_copy }
          octets_read := s.octets_read + octets_to_copy
          octets_available := s.octets_available - octets_to_copy
          consumed := s.consumed ++ src }
    else outcome.faulted s
  else outcome.ok s

/-- Fourth `if` of the loop body: dispatch a complete query to `dm_worker`
and reset the struct for the next one. -/
def step_dispatch (s : read_state) : read_state :=
  if s.p_dm_query.status = DNSOVERTLS_WAITING_QUERY ∧
      s.p_dm_query.expected_octets = s.p_dm_query.query_len then
    let s1 := dm_worker
      { s with p_dm_query := { s.p_dm_query with status := DNSOVERTLS_PROCESS_QUERY } }
    { s1 with p_dm_query := dm_query_reset s1.p_dm_query }
  else s

/-- One pass through the body of the `while` loop: the four `if`s in order,
cut short when the run dies or faults. -/
def loop_body (junk : Nat → Nat) (buf : List Nat) (s : read_state) : outcome :=
  match step_len2 junk buf (step_len1 buf s) with
  | outcome.ok s2 =>
    match step_query buf s2 with
    | outcome.ok s3 => outcome.ok (step_dispatch s3)
    | outcome.died s3 => outcome.died s3
    | outcome.faulted s3 => outcome.faulted s3
  | outcome.died s2 => outcome.died s2
  | outcome.faulted s2 => outcome.faulted s2

/-- The loop `while (octets_available > 0)`, run for at most `fuel` passes:
`none` when the fuel runs out before the loop ends. -/
def while_loop (junk : Nat → Nat) (buf : List Nat) : Nat → read_state → Option outcome
  | 0, s => if 0 < s.octets_available then none else some (outcome.ok s)
  | fuel + 1, s =>
    if 0 < s.octets_available then
      match loop_body junk buf s with
      | outcome.ok s2 => while_loop junk buf fuel s2
      | outcome.died s2 => some (outcome.died s2)
      | outcome.faulted s2 => some (outcome.faulted s2)
    else some (outcome.ok s)

/-- The function `dnsovertls_read`: `ok` when the call returns, with the struct
as the call leaves it, the final counters and the traces. -/
def dnsovertls_read (junk : Nat → Nat) (fuel : Nat) (p_dm_query : dm_query_t)
    (buf : List Nat) (octets_available : Nat) : Option outcome :=
  let s : read_state :=
    { p_dm_query := p_dm_query
      octets_read := 0
      octets_available := octets_available
      dispatched := []
      consumed := [] }
  if octets_available = 0 ∨ p_dm_query.status = DNSOVERTLS_ERROR then some (outcome.ok s)
  else while_loop junk buf fuel s

/-- The wire frame of a message: its length as two big-endian octets, then
the message. -/
def frame (m : List Nat) : List Nat :=
  m.length / 256 :: m.length % 256 :: m

/-- The chunk `len(m1) m1 ... len(mn) mn`. -/
def frames : List (List Nat) → List Nat
  | [] => []
  | m :: ms => frame m ++ frames ms

/-- A caller that hands successive chunks to `dnsovertls_read`, one call per
chunk, each call with `fuel` passes at most; when every call returns it gives
the struct after the last call and all dispatched structs in order, and `none`
otherwise. -/
def feed_chunks (junk : Nat → Nat) (fuel : Nat) (p : dm_query_t) :
    List (List Nat) → Option (dm_query_t × List dm_query_t)
  | [] => some (p, [])
  | c :: cs =>
    match dnsovertls_read junk fuel p c c.length with
    | some (outcome.ok r) =>
      match feed_chunks junk fuel r.p_dm_query cs with
      | none => none
      | some (q, log) => some (q, r.dispatched ++ log)
    | _ => none

/-- The value `dnsovertls_read` gives `expected_octets` for the length octets
`h` (first) and `l` (second), each cast to `unsigned char`. -/
def expected_of (h l : Nat) : Nat :=
  ((h % 256) <<< 8) + l % 256

/-- The query block as the second length octet leaves it: `realloc` to the
expected size, then `memset` of `sizeof(char)` bytes. -/
def sized_block (junk : Nat → Nat) (query : Option (List Nat)) (size : Nat) : List Nat :=
  memset (resized junk query size) 0 sizeof_char

/-- The call `realloc(query, size)` returns a block: `query` is NULL or `size`
is not 0. -/
def alloc_ok (query : Option (List Nat)) (size : Nat) : Prop :=
  query = none ∨ size ≠ 0

instance (query : Option (List Nat)) (size : Nat) : Decidable (alloc_ok query size) := by
  unfold alloc_ok
  exact inferInstance

/-- The sizing of the block for the frame that the octets `pre` start, if
they hold its two length octets, returns a block. -/
def survives (query : Option (List Nat)) : List Nat → Prop
  | h :: l :: _ => alloc_ok query (expected_of h l)
  | _ => True

instance (query : Option (List Nat)) (pre : List Nat) : Decidable (survives query pre) := by
  unfold survives
  split <;> exact inferInstance

/-- The struct after the reader, started on `p0` in phase
`DNSOVERTLS_WAITING_LEN1`, has taken in the octets `pre` of one frame and has
not dispatched yet. -/
def recv (junk : Nat → Nat) (p0 : dm_query_t) : List Nat → dm_query_t
  | [] => p0
  | [h] => { p0 with len1 := h % 256, status := DNSOVERTLS_WAITING_LEN2 }
  | h :: l :: body =>
    { p0 with
      len1 := h % 256
      len2 := l % 256
      expected_octets := expected_of h l
      query_len := body.length
      status := DNSOVERTLS_WAITING_QUERY
      query := some (body ++ (sized_block junk p0.query (expected_of h l)).drop body.length) }

/-- The octets `pre` do not run past the end of the frame they start. -/
def within : List Nat → Prop
  | h :: l :: body => body.length ≤ expected_of h l
  | _ => True

/-- The octets `pre` are exactly one whole frame. -/
def complete : List Nat → Prop
  | h :: l :: body => body.length = expected_of h l
  | _ => False

instance (pre : List Nat) : Decidable (within pre) := by
  unfold within
  split <;> exact inferInstance

instance (pre : List Nat) : Decidable (complete pre) := by
  unfold complete
  split <;> exact inferInstance

/-- The struct `dm_worker` is handed for the message `m` when the reader was
started on `p0`. -/
def dispatched_query (p0 : dm_query_t) (m : List Nat) : dm_query_t :=
  { query := some m
    query_len := m.length
    packet_write := p0.packet_write
    ssl := p0.ssl
    status := DNSOVERTLS_PROCESS_QUERY
    expected_octets := m.length
    len1 := m.length / 256
    len2 := m.length % 256 }

/-- The struct after the messages `ms` have been dispatched one after another,
starting from `p0`. -/
def after_frames (p0 : dm_query_t) : List (List Nat) → dm_query_t
  | [] => p0
  | m :: ms => after_frames (dm_query_reset (dispatched_query p0 m)) ms

/-- The struct is in one of the three waiting phases, and in
`DNSOVERTLS_WAITING_QUERY` it holds no more octets than it expects. -/
def good (p : dm_query_t) : Prop :=
  (p.status = DNSOVERTLS_WAITING_LEN1 ∨ p.status = DNSOVERTLS_WAITING_LEN2 ∨
      p.status = DNSOVERTLS_WAITING_QUERY) ∧
    (p.status = DNSOVERTLS_WAITING_QUERY → p.query_len ≤ p.expected_octets)

/-- The counters of a run split `buf` into the octets read so far, which are
the trace `consumed`, and the octets still available. -/
def in_bounds (buf : List Nat) (s : read_state) : Prop :=
  s.octets_read + s.octets_available = buf.length ∧ s.consumed = buf.take s.octets_read

instance (p : dm_query_t) : Decidable (good p) := by
  unfold good
  exact inferInstance

instance (buf : List Nat) (s : read_state) : Decidable (in_bounds buf s) := by
  unfold in_bounds
  exact inferInstance

/-- In `DNSOVERTLS_WAITING_QUERY` the query pointer holds a block of exactly
`expected_octets` bytes. -/
def block_ok (p : dm_query_t) : Prop :=
  p.status = DNSOVERTLS_WAITING_QUERY → p.query.map List.length = some p.expected_octets

instance (p : dm_query_t) : Decidable (block_ok p) := by
  unfold block_ok
  exact inferInstance

/-- The frames of the messages `ms`, read one after another starting with the
query pointer `query`, never ask `realloc` to resize a block to 0 bytes. -/
def frames_ok (query : Option (List Nat)) : List (List Nat) → Prop
  | [] => True
  | m :: ms => alloc_ok query m.length ∧ ∀ m2 ∈ ms, m2 ≠ []

/-- The struct holds a complete query that has not been dispatched yet. -/
def ready (p : dm_query_t) : Prop :=
  p.status = DNSOVERTLS_WAITING_QUERY ∧ p.expected_octets = p.query_len

instance (p : dm_query_t) : Decidable (ready p) := by
  unfold ready
  exact inferInstance

/-- An upper bound on the passes the loop still makes: one per available
octet, and one more when a complete query waits for dispatch. -/
def passes_left (s : read_state) : Nat :=
  s.octets_available + (if ready s.p_dm_query then 1 else 0)

/-- A sample of the memory `malloc` may return for the struct: every field
holds a leftover value, the `query` pointer happens to be NULL. -/
def sample_mem : dm_query_t :=
  { query := none
    query_len := 5
    packet_write := 1
    ssl := 2
    status := DNSOVERTLS_ERROR
    expected_octets := 7
    len1 := 3
    len2 := 4 }

/-- The struct `dm_query_new sample_mem 6` creates. -/
def sample_fresh : dm_query_t :=
  { query := none
    query_len := 0
    packet_write := 1
    ssl := 6
    status := DNSOVERTLS_WAITING_LEN1
    expected_octets := 0
    len1 := 0
    len2 := 0 }

/-- The struct a freshly created one is left in by a call that reads the
one-octet message 9. -/
def sample_after_9 : dm_query_t :=
  { query := some [0]
    query_len := 0
    packet_write := 1
    ssl := 6
    status := DNSOVERTLS_WAITING_LEN1
    expected_octets := 0
    len1 := 0
    len2 := 0 }

/-- A sample run state: the struct waits for two more body octets of a
three-octet message, one octet of `buf` has been read and three remain. -/
def sample_state : read_state :=
  { p_dm_query :=
      { query := some [1, 0, 0]
        query_len := 1
        packet_write := 0
        ssl := 0
        status := DNSOVERTLS_WAITING_QUERY
        expected_octets := 3
        len1 := 0
        len2 := 3 }
    octets_read := 1
    octets_available := 3
    dispatched := []
    consumed := [5] }

/-- The predicate `0 ≤ query_len ≤ expected_octets ≤ 65535` on the struct. -/
def accumulation_bound (p : dm_query_t) : Prop :=
  p.query_len ≤ p.expected_octets ∧ p.expected_octets ≤ 65535

instance (p : dm_query_t) : Decidable (accumulation_bound p) := by
  unfold accumulation_bound
  exact inferInstance

/-- The structs a connection can hold between calls: a freshly created one,
and any struct left by a call of `dnsovertls_read` that returned, or by
`dm_query_reset`, on a struct of that kind. -/
inductive reachable : dm_query_t → Prop where
  | fresh (mem : dm_query_t) (ssl : Nat) (p : dm_query_t) :
      dm_query_new mem ssl = some p → reachable p
  | read (junk : Nat → Nat) (fuel : Nat) (p : dm_query_t) (buf : List Nat) (r : read_state) :
      reachable p → dnsovertls_read junk fuel p buf buf.length = some (outcome.ok r) →
      reachable r.p_dm_query
  | reset (p : dm_query_t) : reachable p → reachable (dm_query_reset p)

/-- In `DNSOVERTLS_WAITING_QUERY` the expected length is the one the two
length octets encode. -/
def decoded (p : dm_query_t) : Prop :=
  p.status = DNSOVERTLS_WAITING_QUERY → p.expected_octets = 256 * p.len1 + p.len2

/-- The accumulation bound together with the range of the `unsigned char`
field `len1`. -/
def bounded (p : dm_query_t) : Prop :=
  accumulation_bound p ∧ p.len1 < 256

/-! ### `libevent-cb.h`: client teardown -/

/-- The struct `client_t` (built with `WITH_SSL`, as `server-ssl.c` does).
Pointers are `Option` handles, `none` for NULL. -/
structure client_t where
  fd : Int
  evbase : Option Nat
  buf_ev : Option Nat
  output_buffer : Option Nat
  cb_read_count : Int
  p_ssl_client : Option Nat
  deriving DecidableEq, Repr

/-- The library calls by which the teardown functions give resources back,
each with the descriptor or handle it is given. -/
inductive release_call where
  | close (fd : Int)
  | bufferevent_free (buf_ev : Nat)
  | event_base_free (evbase : Nat)
  | evbuffer_free (output_buffer : Nat)
  | ssl_client_cleanup (p_ssl_client : Nat)
  | free_ssl_client (p_ssl_client : Nat)
  | free_client
  | free_query
  | free_dm_query
  deriving DecidableEq, Repr

/-- The function `closeClient`: the client after the call and the calls made,
in program order. -/
def closeClient (client : Option client_t) : Option client_t × List release_call :=
  match client with
  | none => (none, [])
  | some c =>
    if 0 ≤ c.fd then (some { c with fd := -1 }, [release_call.close c.fd])
    else (some c, [])

/-- The function `closeAndFreeClient`: the struct as it is when `free(client)`
is reached, and the calls made, in program order. -/
def closeAndFreeClient (client : Option client_t) : Option client_t × List release_call :=
  match client with
  | none => (none, [])
  | some c0 =>
    let (client1, calls) := closeClient (some c0)
    let c := client1.getD c0
    let (c, calls) :=
      match c.buf_ev with
      | some b => ({ c with buf_ev := none }, calls ++ [release_call.bufferevent_free b])
      | none => (c, calls)
    let (c, calls) :=
      match c.evbase with
      | some e => ({ c with evbase := none }, calls ++ [release_call.event_base_free e])
      | none => (c, calls)
    let (c, calls) :=
      match c.output_buffer with
      | some o => ({ c with output_buffer := none }, calls ++ [release_call.evbuffer_free o])
      | none => (c, calls)
    let (c, calls) :=
      match c.p_ssl_client with
      | some s =>
        ({ c with p_ssl_client := none },
          calls ++ [release_call.ssl_client_cleanup s, release_call.free_ssl_client s])
      | none => (c, calls)
    (some c, calls ++ [release_call.free_client])

/-- The function `dm_query_free`: the calls of `free`, in program order. -/
def dm_query_free (p_dm_query : Option dm_query_t) : List release_call :=
  match p_dm_query with
  | none => []
  | some p =>
    (match p.query with
      | some _ => [release_call.free_query]
      | none => []) ++ [release_call.free_dm_query]

/-- The teardown order as the specification words it: the TLS handle first,
then the output buffer, then the reactor resources (bufferevent, event base). -/
def teardown_as_specified (c : client_t) : List release_call :=
  (match c.p_ssl_client with
    | some s => [release_call.ssl_client_cleanup s, release_call.free_ssl_client s]
    | none => []) ++
  (match c.output_buffer with
    | some o => [release_call.evbuffer_free o]
    | none => []) ++
  (match c.buf_ev with
    | some b => [release_call.bufferevent_free b]
    | none => []) ++
  (match c.evbase with
    | some e => [release_call.event_base_free e]
    | none => [])

/-- The teardown order of `closeAndFreeClient`: the socket, the bufferevent,
the event base, the output buffer, the TLS client, the struct. -/
def teardown_in_source (c : client_t) : List release_call :=
  (if 0 ≤ c.fd then [release_call.close c.fd] else []) ++
  (match c.buf_ev with
    | some b => [release_call.bufferevent_free b]
    | none => []) ++
  (match c.evbase with
    | some e => [release_call.event_base_free e]
    | none => []) ++
  (match c.output_buffer with
    | some o => [release_call.evbuffer_free o]
    | none => []) ++
  (match c.p_ssl_client with
    | some s => [release_call.ssl_client_cleanup s, release_call.free_ssl_client s]
    | none => []) ++
  [release_call.free_client]

/-- A sample client with an open socket and every resource allocated. -/
def sample_client : client_t :=
  { fd := 7
    evbase := some 2
    buf_ev := some 3
    output_buffer := some 4
    cb_read_count := 0
    p_ssl_client := some 5 }

/-! ### `libevent-cb.h`: the echo callback -/

/-- The six octets copied from the string literal `"Echo: "`. -/
def echo_text : List Nat := [69, 99, 104, 111, 58, 32]

/-- The call `memset(s + off, c, n)`. -/
def memset_at (s : List Nat) (off c n : Nat) : List Nat :=
  s.take off ++ memset (s.drop off) c n

/-- Local state of `do_libevent_echo`: the counters, the local array
`output`, and the calls of `send_unencrypted_bytes` made so far, each with the
TLS client handle and the octets handed over. -/
structure echo_state where
  len : Nat
  offset : Nat
  output_len : Nat
  output : List Nat
  sent : List (Nat × List Nat)
  deriving DecidableEq, Repr

/-- Modelled from the spec: `send_unencrypted_bytes` is declared in `common.h`,
which is not among the sources at hand. The TLS collaborator takes the
plaintext for encryption (`encrypt_for_send(handle, plaintext)`); the call is
recorded with the first `len` octets of `buf`. -/
def send_unencrypted_bytes (sent : List (Nat × List Nat)) (p_ssl_client : Nat)
    (buf : List Nat) (len : Nat) : List (Nat × List Nat) :=
  sent ++ [(p_ssl_client, buf.take len)]

/-- One pass through the loop of `do_libevent_echo`. `DEFAULT_BUF_SIZE` comes
from `common.h` and is a parameter; `DEFAULT_BUF_SIZE - 9` is an `int` that the
comparison and the assignment convert to `size_t`, hence `size_sub`. -/
def echo_body (DEFAULT_BUF_SIZE : Nat) (p_ssl_client : Nat) (buf : List Nat)
    (s : echo_state) : echo_state :=
  let output_len := 0
  let output := memset s.output 0 DEFAULT_BUF_SIZE
  let nbytes := s.len
  let nbytes := if nbytes > size_sub DEFAULT_BUF_SIZE 9 then size_sub DEFAULT_BUF_SIZE 9 else nbytes
  let output := memcpy output 0 echo_text
  let output_len := output_len + 6
  let output := memcpy output output_len ((buf.drop s.offset).take nbytes)
  let output_len := output_len + nbytes
  let output := memset_at output output_len 13 1
  let output_len := output_len + 1
  let output := memset_at output output_len 10 1
  let output_len := output_len + 1
  { len := s.len - nbytes
    offset := s.offset + nbytes
    output_len := output_len
    output := output
    sent := send_unencrypted_bytes s.sent p_ssl_client output output_len }

/-- The loop `while (len>0)` of `do_libevent_echo`, run for at most `fuel`
passes. -/
def echo_loop (DEFAULT_BUF_SIZE : Nat) (p_ssl_client : Nat) (buf : List Nat) :
    Nat → echo_state → Option echo_state
  | 0, s => if 0 < s.len then none else some s
  | fuel + 1, s =>
    if 0 < s.len then
      echo_loop DEFAULT_BUF_SIZE p_ssl_client buf fuel (echo_body DEFAULT_BUF_SIZE p_ssl_client buf s)
    else some s

/-- The function `do_libevent_echo`; the local array `output` starts with
unspecified content, supplied by `junk`. -/
def do_libevent_echo (junk : Nat → Nat) (DEFAULT_BUF_SIZE : Nat) (fuel : Nat)
    (p_ssl_client : Nat) (buf : List Nat) (len : Nat) : Option echo_state :=
  echo_loop DEFAULT_BUF_SIZE p_ssl_client buf fuel
    { len := len
      offset := 0
      output_len := 0
      output := (List.range DEFAULT_BUF_SIZE).map junk
      sent := [] }

/-! ## Memory and arithmetic lemmas -/

theorem resized_length (junk : Nat → Nat) (ptr : Option (List Nat)) (size : Nat) :
    (resized junk ptr size).length = size := by
  simp [resized]
  omega

theorem realloc_ok (junk : Nat → Nat) (ptr : Option (List Nat)) (size : Nat)
    (h : alloc_ok ptr size) : realloc junk ptr size = some (resized junk ptr size) := by
  cases ptr with
  | none => rfl
  | some old =>
    have hs : size ≠ 0 := by
      rcases h with h | h
      · exact absurd h (by simp)
      · exact h
    simp [realloc, hs]

theorem realloc_null (junk : Nat → Nat) (old : List Nat) : realloc junk (some old) 0 = none := by
  simp [realloc]

theorem memset_length (s : List Nat) (c n : Nat) : (memset s c n).length = s.length := by
  simp [memset]
  omega

theorem memcpy_length (dest : List Nat) (off : Nat) (src : List Nat) :
    (memcpy dest off src).length = dest.length := by
  simp [memcpy]
  omega

theorem sized_block_length (junk : Nat → Nat) (query : Option (List Nat)) (size : Nat) :
    (sized_block junk query size).length = size := by
  simp [sized_block, memset_length, resized_length]

theorem memset_overrun_one (s : List Nat) :
    memset_overrun s sizeof_char ≤ 1 ∧ (s ≠ [] → memset_overrun s sizeof_char = 0) := by
  unfold memset_overrun sizeof_char
  refine ⟨by omega, ?_⟩
  intro h
  have : 0 < s.length := List.length_pos.mpr h
  omega

theorem memcpy_nil (dest : List Nat) (off : Nat) : memcpy dest off [] = dest := by
  simp [memcpy]

theorem memcpy_at_end (a b src : List Nat) (h : src.length ≤ b.length) :
    memcpy (a ++ b) a.length src = a ++ src ++ b.drop src.length := by
  have e : (a ++ b).drop (a.length + src.length) = b.drop src.length := by
    rw [← List.drop_drop, List.drop_left]
  unfold memcpy
  rw [e, List.take_left]
  apply List.take_of_length_le
  simp
  omega

theorem getElem_of_drop {buf : List Nat} {r x : Nat} {t : List Nat} (h : buf.drop r = x :: t) :
    buf[r]?.getD 0 = x := by
  have := List.getElem?_drop buf r 0
  rw [h] at this
  simp at this
  simp [← this]

theorem getD_of_drop {buf : List Nat} {r x : Nat} {t : List Nat} (h : buf.drop r = x :: t) :
    buf.getD r 0 = x := by
  simp [getElem_of_drop h]

theorem drop_add_of_drop {buf : List Nat} {r : Nat} (c t : List Nat) (h : buf.drop r = c ++ t) :
    buf.drop (r + c.length) = t := by
  rw [← List.drop_drop, h, List.drop_left]

theorem drop_succ_of_drop {buf : List Nat} {r x : Nat} {t : List Nat} (h : buf.drop r = x :: t) :
    buf.drop (r + 1) = t :=
  drop_add_of_drop [x] t h

theorem and_255 (n : Nat) : n &&& 255 = n % 256 :=
  Nat.and_pow_two_sub_one_eq_mod n 8

theorem shr_8 (n : Nat) : n >>> 8 = n / 256 :=
  Nat.shiftRight_eq_div_pow n 8

theorem shl_8_or (h l : Nat) (hl : l < 256) : (h <<< 8) ||| l = 256 * h + l := by
  rw [Nat.shiftLeft_eq, Nat.mul_comm]
  exact (Nat.mul_add_lt_is_or (i := 8) hl h).symm

theorem expected_of_eq (h l : Nat) : expected_of h l = 256 * (h % 256) + l % 256 := by
  simp [expected_of, Nat.shiftLeft_eq]
  omega

theorem expected_of_frame (n : Nat) (hn : n ≤ 65535) : expected_of (n / 256) (n % 256) = n := by
  rw [expected_of_eq]
  omega

/-! ## The steps of one pass on a struct that is part-way through a frame -/

theorem step_len1_recv (junk : Nat → Nat) (buf : List Nat) (p0 : dm_query_t) (r x : Nat)
    (t : List Nat) (log : List dm_query_t) (tr : List Nat)
    (h0 : p0.status = DNSOVERTLS_WAITING_LEN1) (hd : buf.drop r = x :: t) :
    step_len1 buf ⟨recv junk p0 [], r, t.length + 1, log, tr⟩
      = ⟨recv junk p0 [x], r + 1, t.length, log, tr ++ [x]⟩ := by
  simp [step_len1, recv, h0, getElem_of_drop hd]

theorem step_len1_skip (buf : List Nat) (s : read_state)
    (h : s.octets_available = 0 ∨ s.p_dm_query.status ≠ DNSOVERTLS_WAITING_LEN1) :
    step_len1 buf s = s := by
  unfold step_len1
  rw [if_neg]
  rintro ⟨h1, h2⟩
  rcases h with h | h
  · omega
  · exact h h2

theorem step_len2_recv (junk : Nat → Nat) (buf : List Nat) (p0 : dm_query_t) (r h x : Nat)
    (t : List Nat) (log : List dm_query_t) (tr : List Nat)
    (hd : buf.drop r = x :: t) (ha : alloc_ok p0.query (expected_of h x)) :
    step_len2 junk buf ⟨recv junk p0 [h], r, t.length + 1, log, tr⟩
      = outcome.ok ⟨recv junk p0 [h, x], r + 1, t.length, log, tr ++ [x]⟩ := by
  have hr := realloc_ok junk p0.query (expected_of h x) ha
  unfold expected_of at hr
  unfold step_len2
  rw [if_pos ⟨Nat.succ_pos _, rfl⟩]
  simp only [recv, getD_of_drop hd, hr]
  simp [expected_of, sized_block]

theorem step_len2_null (junk : Nat → Nat) (buf : List Nat) (p0 : dm_query_t) (r h x : Nat)
    (t : List Nat) (log : List dm_query_t) (tr : List Nat)
    (hd : buf.drop r = x :: t) (ha : ¬ alloc_ok p0.query (expected_of h x)) :
    step_len2 junk buf ⟨recv junk p0 [h], r, t.length + 1, log, tr⟩
      = outcome.died
          ⟨{ recv junk p0 [h] with
              len2 := x % 256
              expected_octets := 0
              query_len := 0
              status := DNSOVERTLS_WAITING_QUERY }, r + 1, t.length, log, tr ++ [x]⟩ := by
  unfold alloc_ok at ha
  have he : expected_of h x = 0 := by
    by_contra hne
    exact ha (Or.inr hne)
  obtain ⟨old, hq⟩ : ∃ old, p0.query = some old := by
    cases hq : p0.query with
    | none => exact absurd (Or.inl hq) ha
    | some old => exact ⟨old, rfl⟩
  unfold expected_of at he
  unfold step_len2
  rw [if_pos ⟨Nat.succ_pos _, rfl⟩]
  simp only [recv, getD_of_drop hd, he, hq, realloc_null, die]
  simp

theorem step_len2_skip (junk : Nat → Nat) (buf : List Nat) (s : read_state)
    (h : s.octets_available = 0 ∨ s.p_dm_query.status ≠ DNSOVERTLS_WAITING_LEN2) :
    step_len2 junk buf s = outcome.ok s := by
  unfold step_len2
  rw [if_neg]
  rintro ⟨h1, h2⟩
  rcases h with h | h
  · omega
  · exact h h2

theorem step_query_skip (buf : List Nat) (s : read_state)
    (h : s.octets_available = 0 ∨ s.p_dm_query.status ≠ DNSOVERTLS_WAITING_QUERY) :
    step_query buf s = outcome.ok s := by
  unfold step_query
  rw [if_neg]
  rintro ⟨h1, h2⟩
  rcases h with h | h
  · omega
  · exact h h2

theorem step_query_recv (junk : Nat → Nat) (buf : List Nat) (p0 : dm_query_t) (r h l : Nat)
    (body c rest : List Nat) (log : List dm_query_t) (tr : List Nat)
    (hd : buf.drop r = c ++ rest)
    (hle : body.length + c.length ≤ expected_of h l)
    (hrest : rest = [] ∨ body.length + c.length = expected_of h l) :
    step_query buf ⟨recv junk p0 (h :: l :: body), r, c.length + rest.length, log, tr⟩
      = outcome.ok
          ⟨recv junk p0 (h :: l :: (body ++ c)), r + c.length, rest.length, log, tr ++ c⟩ := by
  by_cases ha : c.length + rest.length = 0
  · have hc : c = [] := List.length_eq_zero.mp (by omega)
    have hr : rest = [] := List.length_eq_zero.mp (by omega)
    subst hc hr
    rw [step_query_skip _ _ (Or.inl (by simp))]
    simp
  · have hk : (if size_sub (expected_of h l) body.length < c.length + rest.length
        then size_sub (expected_of h l) body.length else c.length + rest.length) = c.length := by
      have : size_sub (expected_of h l) body.length = expected_of h l - body.length := by
        unfold size_sub
        rw [if_pos (by omega)]
      rw [this]
      rcases hrest with hr | hr
      · subst hr
        simp
        omega
      · split <;> omega
    have hsrc : (buf.drop r).take c.length = c := by rw [hd, List.take_left]
    have hcpy : memcpy (body ++ (sized_block junk p0.query (expected_of h l)).drop body.length)
        body.length c
        = body ++ c ++ (sized_block junk p0.query (expected_of h l)).drop (body.length + c.length) := by
      rw [memcpy_at_end, List.drop_drop]
      simp [sized_block_length]
      omega
    have hw : writable
        (some (body ++ (sized_block junk p0.query (expected_of h l)).drop body.length))
        body.length c.length := by
      right
      simp [sized_block_length]
      omega
    unfold step_query
    rw [if_pos ⟨by show 0 < c.length + rest.length; omega, rfl⟩]
    simp only [recv]
    simp only [hk, hsrc, Option.map_some', hcpy]
    rw [if_pos hw]
    simp

theorem loop_body_of_steps (junk : Nat → Nat) (buf : List Nat) (s s2 s3 : read_state)
    (h2 : step_len2 junk buf (step_len1 buf s) = outcome.ok s2)
    (h3 : step_query buf s2 = outcome.ok s3) :
    loop_body junk buf s = outcome.ok (step_dispatch s3) := by
  unfold loop_body
  rw [h2]
  simp only []
  rw [h3]

theorem loop_body_of_died (junk : Nat → Nat) (buf : List Nat) (s s2 : read_state)
    (h2 : step_len2 junk buf (step_len1 buf s) = outcome.died s2) :
    loop_body junk buf s = outcome.died s2 := by
  unfold loop_body
  rw [h2]

theorem survives_of_append (query : Option (List Nat)) (a b : List Nat)
    (h : survives query (a ++ b)) : survives query a := by
  match a, h with
  | [], _ => trivial
  | [x], _ => trivial
  | x :: y :: body, h => exact h

theorem loop_body_absorb (junk : Nat → Nat) (buf : List Nat) (p0 : dm_query_t) (r : Nat)
    (pre c rest : List Nat) (log : List dm_query_t) (tr : List Nat)
    (h0 : p0.status = DNSOVERTLS_WAITING_LEN1) (hd : buf.drop r = c ++ rest)
    (hw : within (pre ++ c)) (hrest : rest = [] ∨ complete (pre ++ c))
    (hs : survives p0.query (pre ++ c)) :
    loop_body junk buf ⟨recv junk p0 pre, r, c.length + rest.length, log, tr⟩
      = outcome.ok
          (step_dispatch ⟨recv junk p0 (pre ++ c), r + c.length, rest.length, log, tr ++ c⟩) := by
  match pre, c, hd, hw, hrest, hs with
  | [], [], hd, hw, hrest, _ =>
    have hr : rest = [] := by simpa [complete] using hrest
    subst hr
    unfold loop_body
    rw [step_len1_skip _ _ (Or.inl rfl), step_len2_skip _ _ _ (Or.inl rfl)]
    simp only []
    rw [step_query_skip _ _ (Or.inl rfl)]
    simp
  | [], [x], hd, hw, hrest, _ =>
    have hr : rest = [] := by simpa [complete] using hrest
    subst hr
    have h1 := step_len1_recv junk buf p0 r x [] log tr h0 (by simpa using hd)
    simp only [List.length_nil, List.length_cons, List.nil_append, Nat.zero_add] at h1 ⊢
    unfold loop_body
    rw [h1, step_len2_skip _ _ _ (Or.inl rfl)]
    simp only []
    rw [step_query_skip _ _ (Or.inl rfl)]
  | [], x :: y :: b, hd, hw, hrest, hs =>
    have h1 := step_len1_recv junk buf p0 r x (y :: (b ++ rest)) log tr h0 (by simpa using hd)
    have hd1 : buf.drop (r + 1) = y :: (b ++ rest) := drop_succ_of_drop (by simpa using hd)
    have h2 := step_len2_recv junk buf p0 (r + 1) x y (b ++ rest) log (tr ++ [x]) hd1 hs
    have hd2 : buf.drop (r + 1 + 1) = b ++ rest := drop_succ_of_drop hd1
    have h3 := step_query_recv junk buf p0 (r + 1 + 1) x y [] b rest log (tr ++ [x] ++ [y]) hd2
      (by simpa [within] using hw)
      (by simpa [complete] using hrest)
    simp only [List.length_append, List.length_cons, List.nil_append] at h1 h2 h3 ⊢
    have e1 : b.length + 1 + 1 + rest.length = b.length + rest.length + 1 + 1 := by omega
    unfold loop_body
    rw [e1, h1, h2]
    simp only []
    rw [h3]
    refine congrArg (fun s => outcome.ok (step_dispatch s)) ?_
    simp
    omega
  | [h], [], hd, hw, hrest, _ =>
    have hr : rest = [] := by simpa [complete] using hrest
    subst hr
    unfold loop_body
    rw [step_len1_skip _ _ (Or.inl rfl), step_len2_skip _ _ _ (Or.inl rfl)]
    simp only []
    rw [step_query_skip _ _ (Or.inl rfl)]
    simp
  | [h], y :: b, hd, hw, hrest, hs =>
    have hd1 : buf.drop r = y :: (b ++ rest) := by simpa using hd
    have h2 := step_len2_recv junk buf p0 r h y (b ++ rest) log tr hd1 hs
    have hd2 : buf.drop (r + 1) = b ++ rest := drop_succ_of_drop hd1
    have h3 := step_query_recv junk buf p0 (r + 1) h y [] b rest log (tr ++ [y]) hd2
      (by simpa [within] using hw)
      (by simpa [complete] using hrest)
    simp only [List.length_append, List.length_cons, List.nil_append] at h2 h3 ⊢
    have e1 : b.length + 1 + rest.length = b.length + rest.length + 1 := by omega
    unfold loop_body
    rw [step_len1_skip _ _ (Or.inr (by simp [recv])), e1, h2]
    simp only []
    rw [h3]
    refine congrArg (fun s => outcome.ok (step_dispatch s)) ?_
    simp
    omega
  | h :: l :: body, c, hd, hw, hrest, _ =>
    have h3 := step_query_recv junk buf p0 r h l body c rest log tr hd
      (by simpa [within] using hw)
      (by simpa [complete] using hrest)
    unfold loop_body
    rw [step_len1_skip _ _ (Or.inr (by simp [recv])),
      step_len2_skip _ _ _ (Or.inr (by simp [recv]))]
    simp only []
    rw [h3]
    simp

theorem step_dispatch_complete (junk : Nat → Nat) (p0 : dm_query_t) (pre : List Nat)
    (r a : Nat) (log : List dm_query_t) (tr : List Nat) (hc : complete pre) :
    step_dispatch ⟨recv junk p0 pre, r, a, log, tr⟩
      = ⟨dm_query_reset { recv junk p0 pre with status := DNSOVERTLS_PROCESS_QUERY }, r, a,
          log ++ [{ recv junk p0 pre with status := DNSOVERTLS_PROCESS_QUERY }], tr⟩ := by
  match pre, hc with
  | h :: l :: body, hc =>
    have : expected_of h l = body.length := hc.symm
    simp [step_dispatch, recv, this, dm_worker]

theorem step_dispatch_incomplete (junk : Nat → Nat) (p0 : dm_query_t) (pre : List Nat)
    (r a : Nat) (log : List dm_query_t) (tr : List Nat)
    (h0 : p0.status = DNSOVERTLS_WAITING_LEN1) (hc : ¬ complete pre) :
    step_dispatch ⟨recv junk p0 pre, r, a, log, tr⟩ = ⟨recv junk p0 pre, r, a, log, tr⟩ := by
  match pre, hc with
  | [], _ => simp [step_dispatch, recv, h0]
  | [h], _ => simp [step_dispatch, recv]
  | h :: l :: body, hc =>
    have : ¬ expected_of h l = body.length := fun e => hc e.symm
    simp [step_dispatch, recv, this]

theorem recv_frame (junk : Nat → Nat) (p0 : dm_query_t) (m : List Nat)
    (hm : m.length ≤ 65535) :
    { recv junk p0 (frame m) with status := DNSOVERTLS_PROCESS_QUERY } = dispatched_query p0 m := by
  have e := expected_of_frame m.length hm
  have hlen := sized_block_length junk p0.query m.length
  have h1 : m.length / 256 % 256 = m.length / 256 := by omega
  simp [recv, frame, dispatched_query, e, h1, List.drop_of_length_le (Nat.le_of_eq hlen)]

theorem complete_frame (m : List Nat) (hm : m.length ≤ 65535) : complete (frame m) := by
  simp [complete, frame, expected_of_frame m.length hm]

theorem within_frame (m : List Nat) (hm : m.length ≤ 65535) : within (frame m) := by
  simp [within, frame, expected_of_frame m.length hm]

/-! ## The loop over whole frames -/

theorem while_loop_done (junk : Nat → Nat) (buf : List Nat) (fuel : Nat) (s : read_state)
    (h : s.octets_available = 0) : while_loop junk buf fuel s = some (outcome.ok s) := by
  cases fuel <;> simp [while_loop, h]

theorem while_loop_pass (junk : Nat → Nat) (buf : List Nat) (fuel : Nat) (s s2 : read_state)
    (h : 0 < s.octets_available) (hb : loop_body junk buf s = outcome.ok s2) :
    while_loop junk buf (fuel + 1) s = while_loop junk buf fuel s2 := by
  simp [while_loop, h, hb]

theorem while_loop_died (junk : Nat → Nat) (buf : List Nat) (fuel : Nat) (s s2 : read_state)
    (h : 0 < s.octets_available) (hb : loop_body junk buf s = outcome.died s2) :
    while_loop junk buf (fuel + 1) s = some (outcome.died s2) := by
  simp [while_loop, h, hb]

theorem while_loop_faulted (junk : Nat → Nat) (buf : List Nat) (fuel : Nat) (s s2 : read_state)
    (h : 0 < s.octets_available) (hb : loop_body junk buf s = outcome.faulted s2) :
    while_loop junk buf (fuel + 1) s = some (outcome.faulted s2) := by
  simp [while_loop, h, hb]

theorem survives_frame (query : Option (List Nat)) (m : List Nat) (hm : m.length ≤ 65535)
    (ha : alloc_ok query m.length) : survives query (frame m) := by
  simp only [survives, frame, expected_of_frame m.length hm]
  exact ha

theorem survives_of_incomplete (query : Option (List Nat)) (t : List Nat)
    (hw : within t) (hc : ¬ complete t) : survives query t := by
  match t, hw, hc with
  | [], _, _ => trivial
  | [x], _, _ => trivial
  | h :: l :: body, hw, hc =>
    simp only [within, complete] at hw hc
    exact Or.inr (by omega)

theorem frames_ok_of_nonempty (query : Option (List Nat)) (ms : List (List Nat))
    (h : ∀ m ∈ ms, m ≠ []) : frames_ok query ms := by
  cases ms with
  | nil => trivial
  | cons m ms =>
    refine ⟨Or.inr ?_, fun m2 hm2 => h m2 (List.mem_cons_of_mem _ hm2)⟩
    exact fun e => h m (List.mem_cons_self _ _) (List.length_eq_zero.mp e)

theorem loop_body_frame (junk : Nat → Nat) (buf : List Nat) (p0 : dm_query_t) (r : Nat)
    (m rest : List Nat) (log : List dm_query_t) (tr : List Nat)
    (h0 : p0.status = DNSOVERTLS_WAITING_LEN1) (hd : buf.drop r = frame m ++ rest)
    (hm : m.length ≤ 65535) (ha : alloc_ok p0.query m.length) :
    loop_body junk buf ⟨p0, r, (frame m).length + rest.length, log, tr⟩
      = outcome.ok ⟨dm_query_reset (dispatched_query p0 m), r + (frame m).length, rest.length,
          log ++ [dispatched_query p0 m], tr ++ frame m⟩ := by
  have h := loop_body_absorb junk buf p0 r [] (frame m) rest log tr h0 hd
    (within_frame m hm) (Or.inr (complete_frame m hm)) (survives_frame _ m hm ha)
  simp only [List.nil_append] at h
  rw [step_dispatch_complete junk p0 (frame m) _ _ _ _ (complete_frame m hm),
    recv_frame junk p0 m hm] at h
  exact h

theorem dispatched_query_reset (p0 : dm_query_t) (m m2 : List Nat) :
    dispatched_query (dm_query_reset (dispatched_query p0 m)) m2 = dispatched_query p0 m2 := rfl

theorem dm_query_reset_status (p : dm_query_t) :
    (dm_query_reset p).status = DNSOVERTLS_WAITING_LEN1 := rfl

theorem after_frames_status (p0 : dm_query_t) (ms : List (List Nat))
    (h0 : p0.status = DNSOVERTLS_WAITING_LEN1) :
    (after_frames p0 ms).status = DNSOVERTLS_WAITING_LEN1 := by
  induction ms generalizing p0 with
  | nil => exact h0
  | cons m ms ih => exact ih _ rfl

theorem while_loop_frames (junk : Nat → Nat) (buf : List Nat) (tail : List Nat)
    (hw : within tail) (hc : ¬ complete tail) :
    ∀ (ms : List (List Nat)) (p0 : dm_query_t) (r : Nat) (log : List dm_query_t)
      (tr : List Nat) (fuel : Nat),
      p0.status = DNSOVERTLS_WAITING_LEN1 → buf.drop r = frames ms ++ tail →
      (∀ m ∈ ms, m.length ≤ 65535) → frames_ok p0.query ms → ms.length < fuel →
      while_loop junk buf fuel ⟨p0, r, (frames ms ++ tail).length, log, tr⟩
        = some (outcome.ok ⟨recv junk (after_frames p0 ms) tail,
            r + (frames ms ++ tail).length, 0,
            log ++ ms.map (dispatched_query p0), tr ++ (frames ms ++ tail)⟩) := by
  intro ms
  induction ms with
  | nil =>
    intro p0 r log tr fuel h0 hd _ _ hf
    obtain ⟨f, rfl⟩ : ∃ f, fuel = f + 1 := ⟨fuel - 1, by omega⟩
    simp only [frames, List.nil_append, List.map_nil, List.append_nil, after_frames] at hd ⊢
    by_cases ht : tail = []
    · subst ht
      rw [while_loop_done _ _ _ _ rfl]
      simp [recv]
    · have hpos : 0 < tail.length := List.length_pos.mpr ht
      have h := loop_body_absorb junk buf p0 r [] tail [] log tr h0 (by simpa using hd)
        (by simpa using hw) (Or.inl rfl) (survives_of_incomplete _ _ (by simpa using hw)
          (by simpa using hc))
      simp only [List.nil_append, List.length_nil, Nat.add_zero] at h
      have e : recv junk p0 [] = p0 := rfl
      rw [e, step_dispatch_incomplete junk p0 tail _ _ _ _ h0 hc] at h
      rw [while_loop_pass _ _ _ _ _ hpos h, while_loop_done _ _ _ _ rfl]
  | cons m ms ih =>
    intro p0 r log tr fuel h0 hd hms hok hf
    obtain ⟨f, rfl⟩ : ∃ f, fuel = f + 1 := ⟨fuel - 1, by omega⟩
    have hm : m.length ≤ 65535 := hms m (List.mem_cons_self _ _)
    have hd1 : buf.drop r = frame m ++ (frames ms ++ tail) := by
      simpa [frames, List.append_assoc] using hd
    have hlen : (frames (m :: ms) ++ tail).length
        = (frame m).length + (frames ms ++ tail).length := by
      simp [frames, List.append_assoc]
    have hpos : 0 < (frame m).length + (frames ms ++ tail).length := by
      simp [frame]
    have hb := loop_body_frame junk buf p0 r m (frames ms ++ tail) log tr h0 hd1 hm hok.1
    rw [hlen, while_loop_pass _ _ _ _ _ hpos hb,
      ih _ _ _ _ _ rfl (drop_add_of_drop _ _ hd1)
        (fun x hx => hms x (List.mem_cons_of_mem _ hx))
        (frames_ok_of_nonempty _ ms hok.2) (by simpa using hf)]
    simp [frames, after_frames, dispatched_query_reset, List.append_assoc, Nat.add_assoc]

theorem read_frames (junk : Nat → Nat) (fuel : Nat) (p0 : dm_query_t)
    (ms : List (List Nat)) (tail : List Nat)
    (h0 : p0.status = DNSOVERTLS_WAITING_LEN1) (hms : ∀ m ∈ ms, m.length ≤ 65535)
    (hok : frames_ok p0.query ms)
    (hw : within tail) (hc : ¬ complete tail) (hf : ms.length < fuel) :
    dnsovertls_read junk fuel p0 (frames ms ++ tail) (frames ms ++ tail).length
      = some (outcome.ok ⟨recv junk (after_frames p0 ms) tail, (frames ms ++ tail).length, 0,
          ms.map (dispatched_query p0), frames ms ++ tail⟩) := by
  unfold dnsovertls_read
  by_cases hn : (frames ms ++ tail).length = 0
  · have hnil : frames ms ++ tail = [] := List.length_eq_zero.mp hn
    have hms0 : ms = [] := by
      cases ms with
      | nil => rfl
      | cons m ms => simp [frames, frame] at hnil
    subst hms0
    have ht : tail = [] := by simpa [frames] using hnil
    subst ht
    simp [frames, recv, after_frames]
  · have h := while_loop_frames junk (frames ms ++ tail) tail hw hc ms p0 0 [] [] fuel h0
      (by simp) hms hok hf
    simp only [h0, hn, false_or, if_neg, reduceCtorEq, not_false_eq_true]
    simpa using h

/-! ## One call on a chunk that stays inside the current frame -/

theorem recv_status_ne_error (junk : Nat → Nat) (p0 : dm_query_t) (pre : List Nat)
    (h0 : p0.status = DNSOVERTLS_WAITING_LEN1) :
    (recv junk p0 pre).status ≠ DNSOVERTLS_ERROR := by
  match pre with
  | [] => simp [recv, h0]
  | [h] => simp [recv]
  | h :: l :: body => simp [recv]

theorem within_of_append (a b : List Nat) (h : within (a ++ b)) : within a := by
  match a, h with
  | [], _ => trivial
  | [x], _ => trivial
  | x :: y :: body, h =>
    simp only [within, List.cons_append, List.length_append] at h ⊢
    omega

theorem nil_of_complete_within (a b : List Nat) (hc : complete a) (hw : within (a ++ b)) :
    b = [] := by
  match a, hc, hw with
  | x :: y :: body, hc, hw =>
    simp only [within, complete, List.cons_append, List.length_append] at hc hw
    exact List.length_eq_zero.mp (by omega)

theorem read_recv (junk : Nat → Nat) (fuel : Nat) (p0 : dm_query_t) (pre c : List Nat)
    (h0 : p0.status = DNSOVERTLS_WAITING_LEN1) (hw : within (pre ++ c))
    (hc : ¬ complete pre) (hs : survives p0.query (pre ++ c)) (hf : 0 < fuel) :
    dnsovertls_read junk fuel (recv junk p0 pre) c c.length
      = some (outcome.ok (step_dispatch ⟨recv junk p0 (pre ++ c), c.length, 0, [], c⟩)) := by
  unfold dnsovertls_read
  by_cases hn : c.length = 0
  · have hnil : c = [] := List.length_eq_zero.mp hn
    subst hnil
    simp [step_dispatch_incomplete junk p0 pre _ _ _ _ h0 hc]
  · obtain ⟨f, rfl⟩ : ∃ f, fuel = f + 1 := ⟨fuel - 1, by omega⟩
    have h := loop_body_absorb junk c p0 0 pre c [] [] [] h0 (by simp) hw (Or.inl rfl) hs
    simp only [List.length_nil, Nat.add_zero, Nat.zero_add, List.nil_append] at h
    have hdone : (step_dispatch ⟨recv junk p0 (pre ++ c), c.length, 0, [], c⟩).octets_available
        = 0 := by
      unfold step_dispatch
      split <;> rfl
    rw [if_neg (by simp [hn, recv_status_ne_error junk p0 pre h0]),
      while_loop_pass _ _ _ _ _ (by show 0 < c.length; omega) h, while_loop_done _ _ _ _ hdone]

theorem feed_chunks_empty (junk : Nat → Nat) (fuel : Nat) (p : dm_query_t) :
    ∀ cs : List (List Nat), (∀ c ∈ cs, c = []) → feed_chunks junk fuel p cs = some (p, []) := by
  intro cs
  induction cs with
  | nil => intro _; rfl
  | cons c cs ih =>
    intro h
    have hc : c = [] := h c (List.mem_cons_self _ _)
    subst hc
    simp [feed_chunks, dnsovertls_read, ih (fun x hx => h x (List.mem_cons_of_mem _ hx))]

theorem feed_chunks_frame (junk : Nat → Nat) (fuel : Nat) (p0 : dm_query_t) (m : List Nat)
    (h0 : p0.status = DNSOVERTLS_WAITING_LEN1) (hm : m.length ≤ 65535)
    (ha : alloc_ok p0.query m.length) (hf : 0 < fuel) :
    ∀ (cs : List (List Nat)) (pre : List Nat), ¬ complete pre → pre ++ cs.flatten = frame m →
      feed_chunks junk fuel (recv junk p0 pre) cs
        = some (dm_query_reset (dispatched_query p0 m), [dispatched_query p0 m]) := by
  intro cs
  induction cs with
  | nil =>
    intro pre hc he
    simp only [List.flatten_nil, List.append_nil] at he
    exact absurd (he ▸ complete_frame m hm) hc
  | cons c cs ih =>
    intro pre hc he
    have he2 : (pre ++ c) ++ cs.flatten = frame m := by simpa [List.append_assoc] using he
    have hw2 : within ((pre ++ c) ++ cs.flatten) := he2 ▸ within_frame m hm
    have hw : within (pre ++ c) := within_of_append _ _ hw2
    have hs2 : survives p0.query ((pre ++ c) ++ cs.flatten) := he2 ▸ survives_frame _ m hm ha
    have hs : survives p0.query (pre ++ c) := survives_of_append _ _ _ hs2
    simp only [feed_chunks, read_recv junk fuel p0 pre c h0 hw hc hs hf]
    by_cases hcc : complete (pre ++ c)
    · have hnil : cs.flatten = [] := nil_of_complete_within _ _ hcc hw2
      have hpc : pre ++ c = frame m := by simpa [hnil] using he2
      rw [step_dispatch_complete junk p0 _ _ _ _ _ hcc, hpc, recv_frame junk p0 m hm]
      simp only []
      rw [feed_chunks_empty junk fuel _ cs (List.flatten_eq_nil_iff.mp hnil)]
      simp
    · rw [step_dispatch_incomplete junk p0 _ _ _ _ _ h0 hcc]
      simp only []
      rw [ih (pre ++ c) hcc he2]
      simp

/-! ## Progress of one pass from any waiting phase -/

theorem take_succ_getD (buf : List Nat) (r : Nat) (h : r < buf.length) :
    buf.take r ++ [buf.getD r 0] = buf.take (r + 1) := by
  rw [List.take_succ]
  simp [List.getElem?_eq_getElem h]

theorem loop_body_ok_inv (junk : Nat → Nat) (buf : List Nat) (s s4 : read_state)
    (h : loop_body junk buf s = outcome.ok s4) :
    ∃ s2 s3, step_len2 junk buf (step_len1 buf s) = outcome.ok s2 ∧
      step_query buf s2 = outcome.ok s3 ∧ s4 = step_dispatch s3 := by
  unfold loop_body at h
  cases h2 : step_len2 junk buf (step_len1 buf s) with
  | ok s2 =>
    rw [h2] at h
    simp only [] at h
    cases h3 : step_query buf s2 with
    | ok s3 =>
      rw [h3] at h
      exact ⟨s2, s3, rfl, h3, (outcome.ok.inj h).symm⟩
    | died s3 => rw [h3] at h; exact absurd h (by simp)
    | faulted s3 => rw [h3] at h; exact absurd h (by simp)
  | died s2 => rw [h2] at h; exact absurd h (by simp)
  | faulted s2 => rw [h2] at h; exact absurd h (by simp)

theorem loop_body_faulted_inv (junk : Nat → Nat) (buf : List Nat) (s s4 : read_state)
    (h : loop_body junk buf s = outcome.faulted s4) :
    step_len2 junk buf (step_len1 buf s) = outcome.faulted s4 ∨
      ∃ s2, step_len2 junk buf (step_len1 buf s) = outcome.ok s2 ∧
        step_query buf s2 = outcome.faulted s4 := by
  unfold loop_body at h
  cases h2 : step_len2 junk buf (step_len1 buf s) with
  | ok s2 =>
    rw [h2] at h
    simp only [] at h
    cases h3 : step_query buf s2 with
    | ok s3 => rw [h3] at h; exact absurd h (by simp)
    | died s3 => rw [h3] at h; exact absurd h (by simp)
    | faulted s3 =>
      rw [h3] at h
      exact Or.inr ⟨s2, rfl, by rw [h3]; exact h⟩
  | died s2 => rw [h2] at h; exact absurd h (by simp)
  | faulted s2 =>
    rw [h2] at h
    exact Or.inl h

theorem step_len1_keeps (buf : List Nat) (s : read_state)
    (hg : good s.p_dm_query) (hb : in_bounds buf s) (hk : block_ok s.p_dm_query) :
    good (step_len1 buf s).p_dm_query ∧ in_bounds buf (step_len1 buf s) ∧
      block_ok (step_len1 buf s).p_dm_query ∧
      (step_len1 buf s).octets_available ≤ s.octets_available ∧
      (0 < s.octets_available → s.p_dm_query.status = DNSOVERTLS_WAITING_LEN1 →
        (step_len1 buf s).octets_available < s.octets_available) := by
  obtain ⟨hb1, hb2⟩ := hb
  unfold step_len1
  split
  · next h =>
    refine ⟨?_, ⟨?_, ?_⟩, ?_, ?_, ?_⟩
    · simp [good]
    · show s.octets_read + 1 + (s.octets_available - 1) = buf.length
      omega
    · show s.consumed ++ [buf.getD s.octets_read 0] = buf.take (s.octets_read + 1)
      rw [hb2]
      exact take_succ_getD buf _ (by omega)
    · intro hs
      exact absurd hs (by simp)
    · show s.octets_available - 1 ≤ s.octets_available
      omega
    · intro _ _
      show s.octets_available - 1 < s.octets_available
      omega
  · next h =>
    refine ⟨hg, ⟨hb1, hb2⟩, hk, Nat.le_refl _, ?_⟩
    intro h1 h2
    exact absurd ⟨h1, h2⟩ h

theorem step_len2_not_faulted (junk : Nat → Nat) (buf : List Nat) (s s2 : read_state) :
    step_len2 junk buf s ≠ outcome.faulted s2 := by
  unfold step_len2
  split
  · simp only []
    split <;> simp [die]
  · simp

theorem step_len2_keeps (junk : Nat → Nat) (buf : List Nat) (s s2 : read_state)
    (hg : good s.p_dm_query) (hb : in_bounds buf s) (hk : block_ok s.p_dm_query)
    (h2 : step_len2 junk buf s = outcome.ok s2) :
    good s2.p_dm_query ∧ in_bounds buf s2 ∧ block_ok s2.p_dm_query ∧
      s2.octets_available ≤ s.octets_available ∧
      (0 < s.octets_available → s.p_dm_query.status = DNSOVERTLS_WAITING_LEN2 →
        s2.octets_available < s.octets_available) := by
  obtain ⟨hb1, hb2⟩ := hb
  unfold step_len2 at h2
  split at h2
  · next h =>
    simp only [] at h2
    split at h2
    · exact absurd h2 (by simp [die])
    · next p_tmp hre =>
      have hlen : p_tmp.length
          = (s.p_dm_query.len1 <<< 8) + buf.getD s.octets_read 0 % 256 := by
        cases hq : s.p_dm_query.query with
        | none =>
          rw [hq] at hre
          simp only [realloc] at hre
          rw [← Option.some.inj hre, resized_length]
        | some old =>
          rw [hq] at hre
          simp only [realloc] at hre
          split at hre
          · exact absurd hre (by simp)
          · rw [← Option.some.inj hre, resized_length]
      rw [← outcome.ok.inj h2]
      refine ⟨?_, ⟨?_, ?_⟩, ?_, ?_, ?_⟩
      · simp [good]
      · show s.octets_read + 1 + (s.octets_available - 1) = buf.length
        omega
      · show s.consumed ++ [buf.getD s.octets_read 0] = buf.take (s.octets_read + 1)
        rw [hb2]
        exact take_succ_getD buf _ (by omega)
      · intro _
        show Option.map List.length (some (memset p_tmp 0 sizeof_char)) = some _
        simp only [Option.map_some', memset_length, hlen]
      · show s.octets_available - 1 ≤ s.octets_available
        omega
      · intro _ _
        show s.octets_available - 1 < s.octets_available
        omega
  · next h =>
    rw [← outcome.ok.inj h2]
    refine ⟨hg, ⟨hb1, hb2⟩, hk, Nat.le_refl _, ?_⟩
    intro h1 h2
    exact absurd ⟨h1, h2⟩ h

theorem step_query_not_died (buf : List Nat) (s s2 : read_state) :
    step_query buf s ≠ outcome.died s2 := by
  unfold step_query
  split
  · simp only []
    generalize (if size_sub s.p_dm_query.expected_octets s.p_dm_query.query_len
        < s.octets_available
      then size_sub s.p_dm_query.expected_octets s.p_dm_query.query_len
      else s.octets_available) = k
    split <;> simp
  · simp

theorem step_query_not_faulted (buf : List Nat) (s s2 : read_state)
    (hg : good s.p_dm_query) (hk : block_ok s.p_dm_query) :
    step_query buf s ≠ outcome.faulted s2 := by
  unfold step_query
  split
  · next h =>
    obtain ⟨ha, hs⟩ := h
    have hq := hg.2 hs
    have hn : size_sub s.p_dm_query.expected_octets s.p_dm_query.query_len
        = s.p_dm_query.expected_octets - s.p_dm_query.query_len := by
      unfold size_sub
      rw [if_pos hq]
    simp only [hn]
    rw [if_pos]
    · simp
    · right
      rw [hk hs]
      simp only [Option.getD_some]
      split <;> omega
  · simp

theorem step_query_keeps (buf : List Nat) (s s3 : read_state)
    (hg : good s.p_dm_query) (hb : in_bounds buf s) (hk : block_ok s.p_dm_query)
    (h3 : step_query buf s = outcome.ok s3) :
    good s3.p_dm_query ∧ in_bounds buf s3 ∧ block_ok s3.p_dm_query ∧
      s3.octets_available ≤ s.octets_available ∧
      (0 < s.octets_available → s.p_dm_query.status = DNSOVERTLS_WAITING_QUERY →
        s.p_dm_query.query_len < s.p_dm_query.expected_octets →
        s3.octets_available < s.octets_available) := by
  obtain ⟨hb1, hb2⟩ := hb
  unfold step_query at h3
  split at h3
  · next h =>
    obtain ⟨ha, hs⟩ := h
    have hq := hg.2 hs
    have hn : size_sub s.p_dm_query.expected_octets s.p_dm_query.query_len
        = s.p_dm_query.expected_octets - s.p_dm_query.query_len := by
      unfold size_sub
      rw [if_pos hq]
    simp only [hn] at h3
    generalize hk0 : (if s.p_dm_query.expected_octets - s.p_dm_query.query_len < s.octets_available
      then s.p_dm_query.expected_octets - s.p_dm_query.query_len else s.octets_available) = k
      at h3
    have hk1 : k ≤ s.octets_available := by
      rw [← hk0]; split <;> omega
    have hk2 : k ≤ s.p_dm_query.expected_octets - s.p_dm_query.query_len := by
      rw [← hk0]; split <;> omega
    have hk3 : s.p_dm_query.query_len < s.p_dm_query.expected_octets → 0 < k := by
      intro hlt
      rw [← hk0]; split <;> omega
    split at h3
    · rw [← outcome.ok.inj h3]
      refine ⟨⟨Or.inr (Or.inr hs), ?_⟩, ⟨?_, ?_⟩, ?_, ?_, ?_⟩
      · intro _
        show s.p_dm_query.query_len + k ≤ s.p_dm_query.expected_octets
        omega
      · show s.octets_read + k + (s.octets_available - k) = buf.length
        omega
      · show s.consumed ++ (buf.drop s.octets_read).take k = buf.take (s.octets_read + k)
        rw [hb2, List.take_add]
      · intro _
        have hq0 := hk hs
        show Option.map List.length
            (s.p_dm_query.query.map (fun q => memcpy q s.p_dm_query.query_len
              ((buf.drop s.octets_read).take k))) = some s.p_dm_query.expected_octets
        cases hqq : s.p_dm_query.query with
        | none => rw [hqq] at hq0; exact absurd hq0 (by simp)
        | some b =>
          rw [hqq] at hq0
          simpa [memcpy_length] using hq0
      · show s.octets_available - k ≤ s.octets_available
        omega
      · intro _ _ hlt
        have := hk3 hlt
        show s.octets_available - k < s.octets_available
        omega
    · exact absurd h3 (by simp)
  · next h =>
    rw [← outcome.ok.inj h3]
    refine ⟨hg, ⟨hb1, hb2⟩, hk, Nat.le_refl _, ?_⟩
    intro h1 h2 _
    exact absurd ⟨h1, h2⟩ h

theorem step_dispatch_keeps (buf : List Nat) (s : read_state)
    (hg : good s.p_dm_query) (hb : in_bounds buf s) (hk : block_ok s.p_dm_query) :
    good (step_dispatch s).p_dm_query ∧ in_bounds buf (step_dispatch s) ∧
      block_ok (step_dispatch s).p_dm_query ∧
      (step_dispatch s).octets_available = s.octets_available ∧
      ¬ ready (step_dispatch s).p_dm_query := by
  unfold step_dispatch
  split
  · next h =>
    refine ⟨?_, hb, ?_, rfl, ?_⟩
    · simp [good, dm_query_reset, dm_worker]
    · intro hs
      exact absurd hs (by simp [dm_query_reset, dm_worker])
    · simp [ready, dm_query_reset, dm_worker]
  · next h => exact ⟨hg, hb, hk, rfl, h⟩

theorem loop_body_keeps (junk : Nat → Nat) (buf : List Nat) (s s4 : read_state)
    (hg : good s.p_dm_query) (hb : in_bounds buf s) (hk : block_ok s.p_dm_query)
    (ha : 0 < s.octets_available) (h4 : loop_body junk buf s = outcome.ok s4) :
    good s4.p_dm_query ∧ in_bounds buf s4 ∧ block_ok s4.p_dm_query ∧
      ¬ ready s4.p_dm_query ∧ passes_left s4 < passes_left s := by
  obtain ⟨s2, s3, e2, e3, e4⟩ := loop_body_ok_inv junk buf s s4 h4
  obtain ⟨g1, b1, k1, a1, s1⟩ := step_len1_keeps buf s hg hb hk
  obtain ⟨g2, b2, k2, a2, t2⟩ := step_len2_keeps junk buf _ s2 g1 b1 k1 e2
  obtain ⟨g3, b3, k3, a3, t3⟩ := step_query_keeps buf s2 s3 g2 b2 k2 e3
  obtain ⟨g4, b4, k4, a4, n4⟩ := step_dispatch_keeps buf s3 g3 b3 k3
  rw [e4]
  refine ⟨g4, b4, k4, n4, ?_⟩
  have hleft : passes_left (step_dispatch s3) = (step_dispatch s3).octets_available := by
    unfold passes_left
    rw [if_neg n4]
    rfl
  rw [hleft, a4]
  unfold passes_left
  rcases hg.1 with h | h | h
  · have := s1 ha h
    omega
  · have e1 : step_len1 buf s = s := step_len1_skip buf s (Or.inr (by simp [h]))
    rw [e1] at a2 t2
    have := t2 ha h
    omega
  · have e1 : step_len1 buf s = s := step_len1_skip buf s (Or.inr (by simp [h]))
    rw [e1] at e2
    rw [step_len2_skip junk buf s (Or.inr (by simp [h]))] at e2
    have e2s : s2 = s := (outcome.ok.inj e2).symm
    rw [e2s] at a3 t3
    by_cases hr : ready s.p_dm_query
    · rw [if_pos hr]
      omega
    · have hlt : s.p_dm_query.query_len < s.p_dm_query.expected_octets := by
        have := hg.2 h
        have hne : s.p_dm_query.expected_octets ≠ s.p_dm_query.query_len := fun e => hr ⟨h, e⟩
        omega
      have := t3 ha h hlt
      omega

theorem loop_body_not_faulted (junk : Nat → Nat) (buf : List Nat) (s s4 : read_state)
    (hg : good s.p_dm_query) (hb : in_bounds buf s) (hk : block_ok s.p_dm_query) :
    loop_body junk buf s ≠ outcome.faulted s4 := by
  intro h
  obtain ⟨g1, b1, k1, _, _⟩ := step_len1_keeps buf s hg hb hk
  rcases loop_body_faulted_inv junk buf s s4 h with h2 | ⟨s2, h2, h3⟩
  · exact step_len2_not_faulted junk buf _ _ h2
  · obtain ⟨g2, _, k2, _, _⟩ := step_len2_keeps junk buf _ s2 g1 b1 k1 h2
    exact step_query_not_faulted buf s2 s4 g2 k2 h3

theorem while_loop_ends (junk : Nat → Nat) (buf : List Nat) :
    ∀ (fuel : Nat) (s : read_state), good s.p_dm_query → in_bounds buf s →
      block_ok s.p_dm_query → passes_left s ≤ fuel →
      ∃ e, while_loop junk buf fuel s = some e ∧ (∀ x, e ≠ outcome.faulted x) ∧
        ∀ s2, e = outcome.ok s2 →
          s2.octets_available = 0 ∧ good s2.p_dm_query ∧ in_bounds buf s2 ∧
            block_ok s2.p_dm_query := by
  intro fuel
  induction fuel with
  | zero =>
    intro s hg hb hk hf
    have ha : s.octets_available = 0 := by
      unfold passes_left at hf
      omega
    refine ⟨outcome.ok s, while_loop_done _ _ _ _ ha, by simp, ?_⟩
    intro s2 e
    rw [← outcome.ok.inj e]
    exact ⟨ha, hg, hb, hk⟩
  | succ f ih =>
    intro s hg hb hk hf
    by_cases ha : s.octets_available = 0
    · refine ⟨outcome.ok s, while_loop_done _ _ _ _ ha, by simp, ?_⟩
      intro s2 e
      rw [← outcome.ok.inj e]
      exact ⟨ha, hg, hb, hk⟩
    · have hpos : 0 < s.octets_available := by omega
      cases h4 : loop_body junk buf s with
      | ok s4 =>
        obtain ⟨g, b, k, _, lt⟩ := loop_body_keeps junk buf s s4 hg hb hk hpos h4
        rw [while_loop_pass _ _ _ _ _ hpos h4]
        exact ih s4 g b k (by omega)
      | died s4 =>
        exact ⟨outcome.died s4, while_loop_died _ _ _ _ _ hpos h4, by simp, by simp⟩
      | faulted s4 =>
        exact absurd h4 (loop_body_not_faulted junk buf s s4 hg hb hk)

/-! ## The echo callback -/

theorem memset_at_length (s : List Nat) (off c n : Nat) :
    (memset_at s off c n).length = s.length := by
  simp [memset_at, memset_length]
  omega

theorem memset_full (s : List Nat) (c : Nat) : memset s c s.length = List.replicate s.length c := by
  simp [memset]

theorem memset_at_append (a b : List Nat) (c n : Nat) :
    memset_at (a ++ b) a.length c n = a ++ memset b c n := by
  simp [memset_at]

theorem memset_one_cons (x : Nat) (t : List Nat) (c : Nat) : memset (x :: t) c 1 = c :: t := by
  simp [memset]

theorem echo_record (B : Nat) (out sl : List Nat) (hout : out.length = B) (hB : 9 < B)
    (hsl : sl.length ≤ B - 9) :
    (memset_at (memset_at (memcpy (memcpy (memset out 0 B) 0 echo_text) (0 + 6) sl)
        (0 + 6 + sl.length) 13 1) (0 + 6 + sl.length + 1) 10 1).take (0 + 6 + sl.length + 1 + 1)
      = echo_text ++ sl ++ [13, 10] := by
  obtain ⟨k, hk⟩ : ∃ k, B = 9 + sl.length + k := ⟨B - 9 - sl.length, by omega⟩
  have h0 : memset out 0 B = List.replicate B 0 := by
    rw [← hout]
    exact memset_full out 0
  have h1 : memcpy (List.replicate B 0) 0 echo_text
      = echo_text ++ List.replicate (sl.length + (k + 3)) 0 := by
    have := memcpy_at_end [] (List.replicate B 0) echo_text (by simp [echo_text]; omega)
    simp only [List.nil_append, List.length_nil] at this
    rw [this, List.drop_replicate]
    congr 2
    simp [echo_text]
    omega
  have h2 : memcpy (echo_text ++ List.replicate (sl.length + (k + 3)) 0) (0 + 6) sl
      = echo_text ++ sl ++ (0 :: 0 :: 0 :: List.replicate k 0) := by
    have := memcpy_at_end echo_text (List.replicate (sl.length + (k + 3)) 0) sl (by simp)
    have e6 : echo_text.length = 0 + 6 := rfl
    rw [e6] at this
    rw [this, List.drop_replicate]
    congr 1
    have : sl.length + (k + 3) - sl.length = k + 3 := by omega
    rw [this]
    rfl
  have h3 : memset_at (echo_text ++ sl ++ (0 :: 0 :: 0 :: List.replicate k 0))
      (0 + 6 + sl.length) 13 1
      = echo_text ++ sl ++ [13] ++ (0 :: 0 :: List.replicate k 0) := by
    have e : (echo_text ++ sl).length = 0 + 6 + sl.length := by
      simp [echo_text]
      omega
    rw [← e, memset_at_append, memset_one_cons]
    simp
  have h4 : memset_at (echo_text ++ sl ++ [13] ++ (0 :: 0 :: List.replicate k 0))
      (0 + 6 + sl.length + 1) 10 1
      = echo_text ++ sl ++ [13] ++ [10] ++ (0 :: List.replicate k 0) := by
    have e : (echo_text ++ sl ++ [13]).length = 0 + 6 + sl.length + 1 := by
      simp [echo_text]
      omega
    rw [← e, memset_at_append, memset_one_cons]
    simp
  rw [h0, h1, h2, h3, h4]
  have e : (echo_text ++ sl ++ [13] ++ [10]).length = 0 + 6 + sl.length + 1 + 1 := by
    simp [echo_text]
    omega
  rw [← e, List.take_left]
  simp

theorem echo_body_spec (B ssl : Nat) (buf : List Nat) (s : echo_state) (hB : 9 < B)
    (hout : s.output.length = B) (hoff : s.offset + s.len = buf.length) :
    (echo_body B ssl buf s).len = s.len - min s.len (B - 9) ∧
      (echo_body B ssl buf s).offset = s.offset + min s.len (B - 9) ∧
      (echo_body B ssl buf s).output.length = B ∧
      (echo_body B ssl buf s).sent
        = s.sent ++ [(ssl, echo_text ++ (buf.drop s.offset).take (min s.len (B - 9)) ++ [13, 10])] ∧
      ((buf.drop s.offset).take (min s.len (B - 9))).length = min s.len (B - 9) := by
  have hn : size_sub B 9 = B - 9 := by
    unfold size_sub
    rw [if_pos (by omega)]
  have hk : (if s.len > B - 9 then B - 9 else s.len) = min s.len (B - 9) := by
    split <;> omega
  have hlen : ((buf.drop s.offset).take (min s.len (B - 9))).length = min s.len (B - 9) := by
    simp
    omega
  refine ⟨?_, ?_, ?_, ?_, hlen⟩
  · simp only [echo_body, hn, hk]
  · simp only [echo_body, hn, hk]
  · simp only [echo_body, memset_at_length, memcpy_length, memset_length, hout]
  · simp only [echo_body, hn, hk, send_unencrypted_bytes]
    have h := echo_record B s.output ((buf.drop s.offset).take (min s.len (B - 9))) hout hB
      (by rw [hlen]; omega)
    rw [hlen] at h
    rw [h]

theorem echo_loop_spec (B ssl : Nat) (buf : List Nat) (hB : 9 < B) :
    ∀ (fuel : Nat) (s : echo_state), s.output.length = B → s.offset + s.len = buf.length →
      s.len ≤ fuel →
      ∃ (s2 : echo_state) (slices : List (List Nat)), echo_loop B ssl buf fuel s = some s2 ∧ s2.len = 0 ∧
        s2.sent = s.sent ++ slices.map (fun sl => (ssl, echo_text ++ sl ++ [13, 10])) ∧
        slices.flatten = buf.drop s.offset ∧
        slices.length = (s.len + (B - 9) - 1) / (B - 9) ∧
        ∀ sl ∈ slices, 0 < sl.length ∧ sl.length ≤ B - 9 := by
  have hn : 0 < B - 9 := by omega
  have hzero : ∀ (fuel : Nat) (s : echo_state), s.offset + s.len = buf.length → s.len = 0 →
      ∃ (s2 : echo_state) (slices : List (List Nat)), echo_loop B ssl buf fuel s = some s2 ∧ s2.len = 0 ∧
        s2.sent = s.sent ++ slices.map (fun sl => (ssl, echo_text ++ sl ++ [13, 10])) ∧
        slices.flatten = buf.drop s.offset ∧
        slices.length = (s.len + (B - 9) - 1) / (B - 9) ∧
        ∀ sl ∈ slices, 0 < sl.length ∧ sl.length ≤ B - 9 := by
    intro fuel s hoff h0
    refine ⟨s, [], ?_, h0, by simp, ?_, ?_, by simp⟩
    · cases fuel <;> simp [echo_loop, h0]
    · rw [List.drop_of_length_le (by omega)]
      rfl
    · rw [h0, Nat.zero_add, Nat.div_eq_of_lt (by omega)]
      rfl
  intro fuel
  induction fuel with
  | zero =>
    intro s _ hoff hf
    exact hzero 0 s hoff (by omega)
  | succ f ih =>
    intro s hout hoff hf
    by_cases h0 : s.len = 0
    · exact hzero (f + 1) s hoff h0
    · obtain ⟨b1, b2, b3, b4, b5⟩ := echo_body_spec B ssl buf s hB hout hoff
      have hmin : 0 < min s.len (B - 9) := by omega
      obtain ⟨s2, slices, e1, e2, e3, e4, e5, e6⟩ := ih (echo_body B ssl buf s) b3
        (by rw [b1, b2]; omega) (by rw [b1]; omega)
      refine ⟨s2, (buf.drop s.offset).take (min s.len (B - 9)) :: slices, ?_, e2, ?_, ?_, ?_, ?_⟩
      · simp only [echo_loop]
        rw [if_pos (by omega)]
        exact e1
      · rw [e3, b4]
        simp
      · rw [List.flatten_cons, e4, b2, ← List.drop_drop, List.take_append_drop]
      · rw [List.length_cons, e5, b1]
        have key : s.len + (B - 9) - 1 = (s.len - min s.len (B - 9) + (B - 9) - 1) + (B - 9)
            ∨ (s.len ≤ B - 9) := by omega
        rcases key with key | key
        · rw [key, Nat.add_div_right _ hn]
        · have hm : min s.len (B - 9) = s.len := by omega
          rw [hm, Nat.sub_self, Nat.zero_add, Nat.div_eq_of_lt (by omega)]
          have : s.len + (B - 9) - 1 = (s.len - 1) + (B - 9) := by omega
          rw [this, Nat.add_div_right _ hn, Nat.div_eq_of_lt (by omega)]
      · intro sl hsl
        rcases List.mem_cons.mp hsl with h | h
        · rw [h, b5]
          omega
        · exact e6 sl h

/-! ## Invariants of the reader between calls -/

theorem dm_query_new_some (mem : dm_query_t) (ssl : Nat) (p : dm_query_t)
    (h : dm_query_new mem ssl = some p) :
    p = ⟨none, 0, mem.packet_write, ssl, DNSOVERTLS_WAITING_LEN1, 0, 0, 0⟩ := by
  unfold dm_query_new at h
  split at h
  · next hq =>
    rw [← Option.some.inj h]
    simp [dm_query_reset, hq]
  · exact absurd h (by simp)

theorem step_len1_bounded (buf : List Nat) (s : read_state) (h : bounded s.p_dm_query) :
    bounded (step_len1 buf s).p_dm_query := by
  unfold step_len1
  split
  · exact ⟨h.1, Nat.mod_lt _ (by decide)⟩
  · exact h

theorem step_len2_bounded (junk : Nat → Nat) (buf : List Nat) (s : read_state)
    (h : bounded s.p_dm_query) : bounded (step_len2 junk buf s).state.p_dm_query := by
  have key : (s.p_dm_query.len1 <<< 8) + buf.getD s.octets_read 0 % 256 ≤ 65535 := by
    have h1 := h.2
    have h2 : buf.getD s.octets_read 0 % 256 < 256 := Nat.mod_lt _ (by decide)
    rw [Nat.shiftLeft_eq]
    omega
  unfold step_len2
  split
  · simp only []
    split
    · exact ⟨⟨Nat.zero_le _, key⟩, h.2⟩
    · exact ⟨⟨Nat.zero_le _, key⟩, h.2⟩
  · exact h

theorem step_query_bounded (buf : List Nat) (s : read_state) (h : bounded s.p_dm_query) :
    bounded (step_query buf s).state.p_dm_query := by
  unfold step_query
  split
  · obtain ⟨⟨hq, he⟩, hl⟩ := h
    have hn : size_sub s.p_dm_query.expected_octets s.p_dm_query.query_len
        = s.p_dm_query.expected_octets - s.p_dm_query.query_len := by
      unfold size_sub
      rw [if_pos hq]
    simp only [hn]
    generalize hk0 : (if s.p_dm_query.expected_octets - s.p_dm_query.query_len < s.octets_available
      then s.p_dm_query.expected_octets - s.p_dm_query.query_len else s.octets_available) = k
    have hk2 : k ≤ s.p_dm_query.expected_octets - s.p_dm_query.query_len := by
      rw [← hk0]; split <;> omega
    split
    · refine ⟨⟨?_, he⟩, hl⟩
      show s.p_dm_query.query_len + k ≤ s.p_dm_query.expected_octets
      omega
    · exact ⟨⟨hq, he⟩, hl⟩
  · exact h

theorem dm_query_reset_bounded (p : dm_query_t) : bounded (dm_query_reset p) :=
  ⟨⟨Nat.le_refl 0, Nat.zero_le 65535⟩, Nat.zero_lt_succ 255⟩

theorem dm_query_new_bounded (mem : dm_query_t) (ssl : Nat) (p : dm_query_t)
    (h : dm_query_new mem ssl = some p) : bounded p := by
  rw [dm_query_new_some mem ssl p h]
  exact ⟨⟨Nat.le_refl 0, Nat.zero_le 65535⟩, Nat.zero_lt_succ 255⟩

theorem step_dispatch_bounded (s : read_state) (h : bounded s.p_dm_query) :
    bounded (step_dispatch s).p_dm_query := by
  unfold step_dispatch
  split
  · exact dm_query_reset_bounded _
  · exact h

theorem loop_body_bounded (junk : Nat → Nat) (buf : List Nat) (s : read_state)
    (h : bounded s.p_dm_query) : bounded (loop_body junk buf s).state.p_dm_query := by
  have b2 := step_len2_bounded junk buf _ (step_len1_bounded buf s h)
  unfold loop_body
  cases h2 : step_len2 junk buf (step_len1 buf s) with
  | ok s2 =>
    rw [h2] at b2
    have b3 := step_query_bounded buf s2 b2
    simp only []
    cases h3 : step_query buf s2 with
    | ok s3 =>
      rw [h3] at b3
      exact step_dispatch_bounded s3 b3
    | died s3 => rw [h3] at b3; exact b3
    | faulted s3 => rw [h3] at b3; exact b3
  | died s2 => rw [h2] at b2; exact b2
  | faulted s2 => rw [h2] at b2; exact b2

theorem while_loop_bounded (junk : Nat → Nat) (buf : List Nat) :
    ∀ (fuel : Nat) (s : read_state) (e : outcome), bounded s.p_dm_query →
      while_loop junk buf fuel s = some e → bounded e.state.p_dm_query := by
  intro fuel
  induction fuel with
  | zero =>
    intro s e h hr
    unfold while_loop at hr
    split at hr
    · exact absurd hr (by simp)
    · rw [← Option.some.inj hr]
      exact h
  | succ f ih =>
    intro s e h hr
    have hb := loop_body_bounded junk buf s h
    unfold while_loop at hr
    split at hr
    · cases h4 : loop_body junk buf s with
      | ok s4 =>
        rw [h4] at hr hb
        exact ih s4 e hb hr
      | died s4 =>
        rw [h4] at hr hb
        rw [← Option.some.inj hr]
        exact hb
      | faulted s4 =>
        rw [h4] at hr hb
        rw [← Option.some.inj hr]
        exact hb
    · rw [← Option.some.inj hr]
      exact h

theorem read_bounded (junk : Nat → Nat) (fuel : Nat) (p : dm_query_t) (buf : List Nat)
    (n : Nat) (e : outcome) (h : bounded p)
    (hr : dnsovertls_read junk fuel p buf n = some e) : bounded e.state.p_dm_query := by
  unfold dnsovertls_read at hr
  split at hr
  · rw [← Option.some.inj hr]
    exact h
  · exact while_loop_bounded junk buf fuel _ e h hr

theorem iterate_bounded (junk : Nat → Nat) (buf : List Nat) (s : read_state)
    (h : bounded s.p_dm_query) :
    ∀ k : Nat, bounded ((fun x => (loop_body junk buf x).state)^[k] s).p_dm_query := by
  intro k
  induction k with
  | zero => exact h
  | succ k ih =>
    rw [Function.iterate_succ_apply']
    exact loop_body_bounded junk buf _ ih

theorem reachable_bounded (p : dm_query_t) (h : reachable p) : bounded p := by
  induction h with
  | fresh mem ssl p hnew => exact dm_query_new_bounded mem ssl p hnew
  | read junk fuel p buf r _ hr ih =>
    exact read_bounded junk fuel p buf buf.length (outcome.ok r) ih hr
  | reset p _ _ => exact dm_query_reset_bounded p

theorem step_len1_decoded (buf : List Nat) (s : read_state) (h : decoded s.p_dm_query) :
    decoded (step_len1 buf s).p_dm_query := by
  unfold step_len1
  split
  · intro hs
    exact absurd hs (by simp)
  · exact h

theorem step_len2_decoded (junk : Nat → Nat) (buf : List Nat) (s : read_state)
    (h : decoded s.p_dm_query) : decoded (step_len2 junk buf s).state.p_dm_query := by
  have key : (s.p_dm_query.len1 <<< 8) + buf.getD s.octets_read 0 % 256
      = 256 * s.p_dm_query.len1 + buf.getD s.octets_read 0 % 256 := by
    rw [Nat.shiftLeft_eq]
    omega
  unfold step_len2
  split
  · simp only []
    split
    · exact fun _ => key
    · exact fun _ => key
  · exact h

theorem step_query_decoded (buf : List Nat) (s : read_state) (h : decoded s.p_dm_query) :
    decoded (step_query buf s).state.p_dm_query := by
  unfold step_query
  split
  · next hc =>
    simp only []
    generalize (if size_sub s.p_dm_query.expected_octets s.p_dm_query.query_len
        < s.octets_available
      then size_sub s.p_dm_query.expected_octets s.p_dm_query.query_len
      else s.octets_available) = k
    split
    · exact fun _ => h hc.2
    · exact h
  · exact h

theorem step_dispatch_decoded (s : read_state) (h : decoded s.p_dm_query) :
    decoded (step_dispatch s).p_dm_query := by
  unfold step_dispatch
  split
  · intro hs
    exact absurd hs (by simp [dm_query_reset, dm_worker])
  · exact h

theorem loop_body_decoded (junk : Nat → Nat) (buf : List Nat) (s s4 : read_state)
    (h : decoded s.p_dm_query) (h4 : loop_body junk buf s = outcome.ok s4) :
    decoded s4.p_dm_query := by
  obtain ⟨s2, s3, e2, e3, e4⟩ := loop_body_ok_inv junk buf s s4 h4
  have d2 := step_len2_decoded junk buf _ (step_len1_decoded buf s h)
  rw [e2] at d2
  have d3 := step_query_decoded buf s2 d2
  rw [e3] at d3
  rw [e4]
  exact step_dispatch_decoded s3 d3

theorem while_loop_settled (junk : Nat → Nat) (buf : List Nat) :
    ∀ (fuel : Nat) (s s2 : read_state), good s.p_dm_query → in_bounds buf s →
      block_ok s.p_dm_query → decoded s.p_dm_query → ¬ ready s.p_dm_query →
      while_loop junk buf fuel s = some (outcome.ok s2) →
      good s2.p_dm_query ∧ block_ok s2.p_dm_query ∧ decoded s2.p_dm_query ∧
        ¬ ready s2.p_dm_query := by
  intro fuel
  induction fuel with
  | zero =>
    intro s s2 hg _ hk hd hn hr
    unfold while_loop at hr
    split at hr
    · exact absurd hr (by simp)
    · rw [← outcome.ok.inj (Option.some.inj hr)]
      exact ⟨hg, hk, hd, hn⟩
  | succ f ih =>
    intro s s2 hg hb hk hd hn hr
    unfold while_loop at hr
    split at hr
    · next ha =>
      cases h4 : loop_body junk buf s with
      | ok s4 =>
        rw [h4] at hr
        obtain ⟨g, b, k, n, _⟩ := loop_body_keeps junk buf s s4 hg hb hk ha h4
        exact ih s4 s2 g b k (loop_body_decoded junk buf s s4 hd h4) n hr
      | died s4 => rw [h4] at hr; exact absurd hr (by simp)
      | faulted s4 => rw [h4] at hr; exact absurd hr (by simp)
    · rw [← outcome.ok.inj (Option.some.inj hr)]
      exact ⟨hg, hk, hd, hn⟩

theorem reset_settled (q : dm_query_t) :
    good (dm_query_reset q) ∧ block_ok (dm_query_reset q) ∧ decoded (dm_query_reset q) ∧
      ¬ ready (dm_query_reset q) := by
  refine ⟨⟨Or.inl rfl, ?_⟩, ?_, ?_, ?_⟩
  · intro hs
    exact absurd hs (by simp [dm_query_reset])
  · intro hs
    exact absurd hs (by simp [dm_query_reset])
  · intro hs
    exact absurd hs (by simp [dm_query_reset])
  · simp [ready, dm_query_reset]

theorem reachable_settled (p : dm_query_t) (h : reachable p) :
    good p ∧ block_ok p ∧ decoded p ∧ ¬ ready p := by
  induction h with
  | fresh mem ssl p hnew =>
    rw [dm_query_new_some mem ssl p hnew]
    refine ⟨⟨Or.inl rfl, ?_⟩, ?_, ?_, ?_⟩
    · intro hs
      exact absurd hs (by simp)
    · intro hs
      exact absurd hs (by simp)
    · intro hs
      exact absurd hs (by simp)
    · simp [ready]
  | read junk fuel p buf r _ hr ih =>
    unfold dnsovertls_read at hr
    split at hr
    · rw [← outcome.ok.inj (Option.some.inj hr)]
      exact ih
    · exact while_loop_settled junk buf fuel _ r ih.1 ⟨by simp, by simp⟩ ih.2.1 ih.2.2.1
        ih.2.2.2 hr
  | reset p _ _ => exact reset_settled p

theorem read_ends (junk : Nat → Nat) (fuel : Nat) (p : dm_query_t) (buf : List Nat)
    (hg : good p) (hk : block_ok p) (hf : buf.length < fuel) :
    ∃ e, dnsovertls_read junk fuel p buf buf.length = some e ∧
      (∀ x, e ≠ outcome.faulted x) ∧
      ∀ r, e = outcome.ok r →
        r.octets_read = buf.length ∧ r.octets_available = 0 ∧ r.consumed = buf := by
  unfold dnsovertls_read
  split
  · next h =>
    have hn : buf.length = 0 := by
      rcases h with h | h
      · exact h
      · rcases hg.1 with g | g | g <;> rw [g] at h <;> exact absurd h (by simp)
    have hnil : buf = [] := List.length_eq_zero.mp hn
    subst hnil
    refine ⟨_, rfl, by simp, ?_⟩
    intro r e
    rw [← outcome.ok.inj e]
    exact ⟨rfl, rfl, rfl⟩
  · obtain ⟨e, h2, h3, h4⟩ := while_loop_ends junk buf fuel
      ⟨p, 0, buf.length, [], []⟩ hg ⟨by simp, by simp⟩ hk
      (by unfold passes_left; simp only []; split <;> omega)
    refine ⟨e, h2, h3, ?_⟩
    intro r he
    obtain ⟨a, _, ⟨b1, b2⟩, _⟩ := h4 r he
    refine ⟨by omega, a, ?_⟩
    rw [b2, List.take_of_length_le (by omega)]

/-! ## Where a run calls `die` -/

theorem realloc_none (junk : Nat → Nat) (ptr : Option (List Nat)) (size : Nat)
    (h : realloc junk ptr size = none) : ptr ≠ none ∧ size = 0 := by
  cases ptr with
  | none => exact absurd h (by simp [realloc])
  | some old =>
    simp only [realloc] at h
    split at h
    · next hs => exact ⟨by simp, hs⟩
    · exact absurd h (by simp)

theorem step_len2_died_inv (junk : Nat → Nat) (buf : List Nat) (s s2 : read_state)
    (h : step_len2 junk buf s = outcome.died s2) :
    s2.p_dm_query.status = DNSOVERTLS_WAITING_QUERY ∧ s2.p_dm_query.expected_octets = 0 ∧
      s2.p_dm_query.query_len = 0 ∧ s2.p_dm_query.query ≠ none := by
  unfold step_len2 at h
  split at h
  · simp only [] at h
    split at h
    · next hre =>
      obtain ⟨hq, hz⟩ := realloc_none junk _ _ hre
      simp only [die] at h
      rw [← outcome.died.inj h]
      exact ⟨rfl, hz, rfl, hq⟩
    · exact absurd h (by simp)
  · exact absurd h (by simp)

theorem loop_body_died_inv (junk : Nat → Nat) (buf : List Nat) (s s4 : read_state)
    (h : loop_body junk buf s = outcome.died s4) :
    step_len2 junk buf (step_len1 buf s) = outcome.died s4 := by
  unfold loop_body at h
  cases h2 : step_len2 junk buf (step_len1 buf s) with
  | ok s2 =>
    rw [h2] at h
    simp only [] at h
    cases h3 : step_query buf s2 with
    | ok s3 => rw [h3] at h; exact absurd h (by simp)
    | died s3 => exact absurd h3 (step_query_not_died buf s2 s3)
    | faulted s3 => rw [h3] at h; exact absurd h (by simp)
  | died s2 => rw [h2] at h; exact h
  | faulted s2 => rw [h2] at h; exact absurd h (by simp)

theorem while_loop_died_inv (junk : Nat → Nat) (buf : List Nat) :
    ∀ (fuel : Nat) (s s4 : read_state), while_loop junk buf fuel s = some (outcome.died s4) →
      s4.p_dm_query.status = DNSOVERTLS_WAITING_QUERY ∧ s4.p_dm_query.expected_octets = 0 ∧
        s4.p_dm_query.query_len = 0 ∧ s4.p_dm_query.query ≠ none := by
  intro fuel
  induction fuel with
  | zero =>
    intro s s4 h
    unfold while_loop at h
    split at h <;> exact absurd h (by simp)
  | succ f ih =>
    intro s s4 h
    unfold while_loop at h
    split at h
    · cases h4 : loop_body junk buf s with
      | ok s2 =>
        rw [h4] at h
        exact ih s2 s4 h
      | died s2 =>
        rw [h4] at h
        rw [← outcome.died.inj (Option.some.inj h)]
        exact step_len2_died_inv junk buf _ s2 (loop_body_died_inv junk buf s s2 h4)
      | faulted s2 => rw [h4] at h; exact absurd h (by simp)
    · exact absurd h (by simp)

theorem read_died_inv (junk : Nat → Nat) (fuel : Nat) (p : dm_query_t) (buf : List Nat)
    (n : Nat) (s4 : read_state) (h : dnsovertls_read junk fuel p buf n = some (outcome.died s4)) :
    s4.p_dm_query.status = DNSOVERTLS_WAITING_QUERY ∧ s4.p_dm_query.expected_octets = 0 ∧
      s4.p_dm_query.query_len = 0 ∧ s4.p_dm_query.query ≠ none := by
  unfold dnsovertls_read at h
  split at h
  · exact absurd h (by simp)
  · exact while_loop_died_inv junk buf fuel _ s4 h

/-! ## Supporting facts for the claims -/

theorem message_dispatched_query (p0 : dm_query_t) (m : List Nat) :
    message (dispatched_query p0 m) = m := by
  simp [message, dispatched_query]

theorem map_message_dispatched (p0 : dm_query_t) (ms : List (List Nat)) :
    (ms.map (dispatched_query p0)).map message = ms := by
  induction ms with
  | nil => rfl
  | cons m ms ih => rw [List.map_cons, List.map_cons, message_dispatched_query, ih]

theorem length_le_frames (ms : List (List Nat)) : ms.length ≤ (frames ms).length := by
  induction ms with
  | nil => simp
  | cons m ms ih =>
    simp only [frames, frame, List.length_cons, List.length_append]
    omega

theorem not_complete_nil : ¬ complete [] := fun h => h

theorem dm_query_reset_idem (p : dm_query_t) :
    dm_query_reset (dm_query_reset p) = dm_query_reset p := by
  cases hq : p.query with
  | none => simp [dm_query_reset, hq]
  | some q =>
    cases q with
    | nil => simp [dm_query_reset, hq, memset]
    | cons x t => simp [dm_query_reset, hq, memset, sizeof_char]

theorem dm_query_new_sample : dm_query_new sample_mem 6 = some sample_fresh := rfl

/-- What the second length octet does hold whenever `realloc` returns a block:
the block has exactly `expected_octets` bytes, `query_len` is 0 and the phase
is `DNSOVERTLS_WAITING_QUERY`. -/
theorem step_len2_sizes (junk : Nat → Nat) (buf : List Nat) (s s2 : read_state)
    (ha : 0 < s.octets_available) (hs : s.p_dm_query.status = DNSOVERTLS_WAITING_LEN2)
    (h2 : step_len2 junk buf s = outcome.ok s2) :
    s2.p_dm_query.query.map List.length = some s2.p_dm_query.expected_octets ∧
      s2.p_dm_query.query_len = 0 ∧
      s2.p_dm_query.status = DNSOVERTLS_WAITING_QUERY := by
  unfold step_len2 at h2
  rw [if_pos ⟨ha, hs⟩] at h2
  simp only [] at h2
  split at h2
  · exact absurd h2 (by simp [die])
  · next p_tmp hre =>
    have hlen : p_tmp.length
        = (s.p_dm_query.len1 <<< 8) + buf.getD s.octets_read 0 % 256 := by
      cases hq : s.p_dm_query.query with
      | none =>
        rw [hq] at hre
        simp only [realloc] at hre
        rw [← Option.some.inj hre, resized_length]
      | some old =>
        rw [hq] at hre
        simp only [realloc] at hre
        split at hre
        · exact absurd hre (by simp)
        · rw [← Option.some.inj hre, resized_length]
    rw [← outcome.ok.inj h2]
    refine ⟨?_, rfl, rfl⟩
    show Option.map List.length (some (memset p_tmp 0 sizeof_char)) = some _
    simp only [Option.map_some', memset_length, hlen]

/-- The body step, when the octets to copy lie inside the query block: it
copies exactly `k = min (expected_octets - query_len) octets_available` octets
of `buf`, from `octets_read` on, to offset `query_len` of the block, and
advances the counters by `k`. -/
theorem step_query_copies (buf : List Nat) (s : read_state)
    (hs : s.p_dm_query.status = DNSOVERTLS_WAITING_QUERY) (ha : 0 < s.octets_available)
    (hq : s.p_dm_query.query_len ≤ s.p_dm_query.expected_octets)
    (hw : writable s.p_dm_query.query s.p_dm_query.query_len
      (min (s.p_dm_query.expected_octets - s.p_dm_query.query_len) s.octets_available)) :
    ∃ k, k = min (s.p_dm_query.expected_octets - s.p_dm_query.query_len) s.octets_available ∧
      step_query buf s = outcome.ok
        { s with
          p_dm_query :=
            { s.p_dm_query with
              query := s.p_dm_query.query.map
                (fun q => memcpy q s.p_dm_query.query_len ((buf.drop s.octets_read).take k))
              query_len := s.p_dm_query.query_len + k }
          octets_read := s.octets_read + k
          octets_available := s.octets_available - k
          consumed := s.consumed ++ (buf.drop s.octets_read).take k } := by
  refine ⟨_, rfl, ?_⟩
  have hn : size_sub s.p_dm_query.expected_octets s.p_dm_query.query_len
      = s.p_dm_query.expected_octets - s.p_dm_query.query_len := by
    unfold size_sub
    rw [if_pos hq]
  have hk : (if s.p_dm_query.expected_octets - s.p_dm_query.query_len < s.octets_available
      then s.p_dm_query.expected_octets - s.p_dm_query.query_len else s.octets_available)
      = min (s.p_dm_query.expected_octets - s.p_dm_query.query_len) s.octets_available := by
    split <;> omega
  unfold step_query
  rw [if_pos ⟨ha, hs⟩]
  simp only [hn, hk]
  rw [if_pos hw]

/-- One call on the frames of `ms`, followed by the start `tail` of another
frame, from a struct with a NULL query pointer in `DNSOVERTLS_WAITING_LEN1`,
when no message after the first is empty: the call returns, the messages are
dispatched in order, and the struct holds what `tail` brought. -/
theorem frames_dispatch_in_order (junk : Nat → Nat) (fuel : Nat) (p0 : dm_query_t)
    (ms : List (List Nat)) (tail : List Nat)
    (h0 : p0.status = DNSOVERTLS_WAITING_LEN1) (hq : p0.query = none)
    (hlen : ∀ m ∈ ms, m.length ≤ 65535) (hne : ∀ m ∈ ms.tail, m ≠ [])
    (hw : within tail) (hc : ¬ complete tail)
    (hfuel : (frames ms ++ tail).length < fuel) :
    ∃ r, dnsovertls_read junk fuel p0 (frames ms ++ tail) (frames ms ++ tail).length
        = some (outcome.ok r) ∧
      r.dispatched = ms.map (dispatched_query p0) ∧
      r.dispatched.map message = ms ∧
      r.p_dm_query = recv junk (after_frames p0 ms) tail ∧
      r.octets_read = (frames ms ++ tail).length ∧ r.octets_available = 0 := by
  have hok : frames_ok p0.query ms := by
    cases ms with
    | nil => trivial
    | cons m ms => exact ⟨Or.inl hq, hne⟩
  have hf : ms.length < fuel := by
    have := length_le_frames ms
    simp only [List.length_append] at hfuel
    omega
  exact ⟨_, read_frames junk fuel p0 ms tail h0 hlen hok hw hc hf, rfl,
    map_message_dispatched _ ms, rfl, rfl, rfl⟩

/-! ## The claims -/

/-- C2 (multi-message chunk and dispatch order), evaluated where it fails. A
freshly created struct reads, in one call, the frames of the messages 7 8, the
empty message and 9. After 7 8 has been dispatched the empty message asks
`realloc` to resize the allocated block to 0 bytes; `realloc` frees it and
returns NULL and the reader calls `die`: one message dispatched, three octets
of the chunk unread, no return. -/
theorem C2_empty_message_after_first_dies :
    dm_query_new sample_mem 6 = some sample_fresh ∧
      frames [[7, 8], [], [9]] = [0, 2, 7, 8, 0, 0, 0, 1, 9] ∧
      dnsovertls_read (fun _ => 170) 10 sample_fresh (frames [[7, 8], [], [9]])
          (frames [[7, 8], [], [9]]).length
        = some (outcome.died
            ⟨⟨some [0, 8], 0, 1, 6, DNSOVERTLS_WAITING_QUERY, 0, 0, 0⟩, 6, 3,
              [⟨some [7, 8], 2, 1, 6, DNSOVERTLS_PROCESS_QUERY, 2, 0, 2⟩],
              [0, 2, 7, 8, 0, 0]⟩) := by
  decide

/-- C3 (no over-consumption), evaluated where it fails. A freshly created
struct reads, in one call, the frames of the message 9 and of the empty
message, followed by the length octets 0x00 0x01 of a third frame. The empty
frame makes `realloc` return NULL and the reader calls `die` before the
partial frame is read: one message dispatched instead of two, no return in
`DNSOVERTLS_WAITING_QUERY`. -/
theorem C3_empty_frame_before_partial_dies :
    dm_query_new sample_mem 6 = some sample_fresh ∧
      frames [[9], []] ++ [1 / 256, 1 % 256] = [0, 1, 9, 0, 0, 0, 1] ∧
      dnsovertls_read (fun _ => 170) 10 sample_fresh (frames [[9], []] ++ [1 / 256, 1 % 256])
          (frames [[9], []] ++ [1 / 256, 1 % 256]).length
        = some (outcome.died
            ⟨⟨some [0], 0, 1, 6, DNSOVERTLS_WAITING_QUERY, 0, 0, 0⟩, 5, 2,
              [⟨some [9], 1, 1, 6, DNSOVERTLS_PROCESS_QUERY, 1, 0, 1⟩],
              [0, 1, 9, 0, 0]⟩) := by
  decide

/-- C5 (idempotent reset), evaluated where it fails: after the message
1 2 3 has been dispatched from a freshly created struct, the status fields
equal those of a fresh struct, but the query block still holds the octets 2 3
of the dispatched message (only the first octet was cleared), so the struct
differs from a freshly created one. -/
theorem C5_reset_keeps_message_octets :
    dm_query_new sample_mem 6 = some sample_fresh ∧
      dnsovertls_read (fun _ => 170) 1 sample_fresh [0, 3, 1, 2, 3] 5
        = some (outcome.ok
            ⟨{ sample_fresh with query := some [0, 2, 3] }, 5, 0,
              [⟨some [1, 2, 3], 3, 1, 6, DNSOVERTLS_PROCESS_QUERY, 3, 0, 3⟩],
              [0, 3, 1, 2, 3]⟩) ∧
      message ⟨some [1, 2, 3], 3, 1, 6, DNSOVERTLS_PROCESS_QUERY, 3, 0, 3⟩ = [1, 2, 3] ∧
      sample_fresh.query = none := by
  decide

/-- The call on the octets 0x00 0x00 0x05 from the struct a connection holds
after the message 9: `realloc` is asked to resize the one-byte block to 0
bytes, returns NULL, and the reader calls `die` with the third octet unread. -/
theorem empty_message_on_allocated_block_dies :
    dnsovertls_read (fun _ => 170) 10 sample_fresh [0, 1, 9] 3
        = some (outcome.ok ⟨sample_after_9, 3, 0,
            [⟨some [9], 1, 1, 6, DNSOVERTLS_PROCESS_QUERY, 1, 0, 1⟩], [0, 1, 9]⟩) ∧
      dnsovertls_read (fun _ => 170) 10 sample_after_9 [0, 0, 5] 3
        = some (outcome.died
            ⟨⟨some [0], 0, 1, 6, DNSOVERTLS_WAITING_QUERY, 0, 0, 0⟩, 2, 1, [], [0, 0]⟩) := by
  decide

/-- C7 (buffer sizing at the second length octet), evaluated where it fails.
A freshly created struct reads the message 1 2 3 and then the length octets
0x00 0x03 of the next message: the block is sized to 3 bytes, `query_len` is 0
and the phase is `DNSOVERTLS_WAITING_QUERY`, but the block is 0 2 3: only its
first byte was cleared and the octets 2 3 of the previous message remain. The
second part shows the step alone on a block 9 8 7 grown to four bytes. -/
theorem C7_sizing_keeps_old_octets :
    dm_query_new sample_mem 6 = some sample_fresh ∧
      dnsovertls_read (fun _ => 170) 2 sample_fresh [0, 3, 1, 2, 3, 0, 3] 7
        = some (outcome.ok
            ⟨⟨some [0, 2, 3], 0, 1, 6, DNSOVERTLS_WAITING_QUERY, 3, 0, 3⟩, 7, 0,
              [⟨some [1, 2, 3], 3, 1, 6, DNSOVERTLS_PROCESS_QUERY, 3, 0, 3⟩],
              [0, 3, 1, 2, 3, 0, 3]⟩) ∧
      step_len2 (fun _ => 170) [4]
          ⟨⟨some [9, 8, 7], 0, 1, 6, DNSOVERTLS_WAITING_LEN2, 0, 0, 0⟩, 0, 1, [], []⟩
        = outcome.ok
            ⟨⟨some [0, 8, 7, 170], 0, 1, 6, DNSOVERTLS_WAITING_QUERY, 4, 0, 4⟩, 1, 0, [], [4]⟩ := by
  decide

/-- C8 (length decoding). For every struct in `DNSOVERTLS_WAITING_LEN1` and
every two octets `h`, `l` next in the chunk, the two length steps set
`len1 = h`, `len2 = l`, `expected_octets = (h << 8) | l = 256 * h + l`, which
is at most 65535, whether `realloc` then returns a block or not. When the
query pointer is NULL or the length is not 0, `realloc` returns a block of
exactly that many bytes and the run goes on; otherwise it returns NULL and the
reader calls `die`. -/
theorem C8_length_decoding (junk : Nat → Nat) (buf : List Nat) (s : read_state)
    (h l : Nat) (t : List Nat)
    (hs : s.p_dm_query.status = DNSOVERTLS_WAITING_LEN1)
    (hd : buf.drop s.octets_read = h :: l :: t) (ha : s.octets_available = t.length + 2)
    (hh : h < 256) (hl : l < 256) :
    (step_len2 junk buf (step_len1 buf s)).state.p_dm_query.len1 = h ∧
      (step_len2 junk buf (step_len1 buf s)).state.p_dm_query.len2 = l ∧
      (step_len2 junk buf (step_len1 buf s)).state.p_dm_query.expected_octets
        = (h <<< 8) ||| l ∧
      (step_len2 junk buf (step_len1 buf s)).state.p_dm_query.expected_octets = 256 * h + l ∧
      (step_len2 junk buf (step_len1 buf s)).state.p_dm_query.expected_octets ≤ 65535 ∧
      (alloc_ok s.p_dm_query.query (256 * h + l) →
        ∃ s2, step_len2 junk buf (step_len1 buf s) = outcome.ok s2 ∧
          s2.p_dm_query.query.map List.length = some (256 * h + l)) ∧
      (¬ alloc_ok s.p_dm_query.query (256 * h + l) →
        ∃ s2, step_len2 junk buf (step_len1 buf s) = outcome.died s2) := by
  obtain ⟨p0, r, a, log, tr⟩ := s
  simp only at hs hd ha
  subst ha
  have h1 := step_len1_recv junk buf p0 r h (l :: t) log tr hs hd
  have e0 : recv junk p0 [] = p0 := rfl
  simp only [List.length_cons, e0] at h1
  have hh1 : h % 256 = h := Nat.mod_eq_of_lt hh
  have hl1 : l % 256 = l := Nat.mod_eq_of_lt hl
  have he : expected_of h l = 256 * h + l := by rw [expected_of_eq, hh1, hl1]
  have hor : (h <<< 8) ||| l = 256 * h + l := by rw [shl_8_or h l hl]
  rw [h1]
  show (step_len2 junk buf ⟨recv junk p0 [h], r + 1, t.length + 1, log, tr ++ [h]⟩).state.p_dm_query.len1 = h ∧ _
  by_cases hok : alloc_ok p0.query (expected_of h l)
  · have h2 := step_len2_recv junk buf p0 (r + 1) h l t log (tr ++ [h])
      (drop_succ_of_drop hd) hok
    rw [h2]
    refine ⟨hh1, hl1, ?_, he, ?_, ?_, ?_⟩
    · show expected_of h l = (h <<< 8) ||| l
      rw [he, hor]
    · show expected_of h l ≤ 65535
      omega
    · intro _
      refine ⟨_, rfl, ?_⟩
      show Option.map List.length (some (([] : List Nat)
          ++ (sized_block junk p0.query (expected_of h l)).drop ([] : List Nat).length))
        = some (256 * h + l)
      simp [sized_block_length, he]
    · intro hno
      rw [he] at hok
      exact absurd hok hno
  · have h2 := step_len2_null junk buf p0 (r + 1) h l t log (tr ++ [h])
      (drop_succ_of_drop hd) hok
    have hz : expected_of h l = 0 := by
      by_contra hne
      exact hok (Or.inr hne)
    rw [h2]
    refine ⟨hh1, hl1, ?_, ?_, ?_, ?_, ?_⟩
    · show 0 = (h <<< 8) ||| l
      rw [hor, ← he, hz]
    · show 0 = 256 * h + l
      rw [← he, hz]
    · show 0 ≤ 65535
      exact Nat.zero_le _
    · intro hyes
      rw [← he] at hyes
      exact absurd hyes hok
    · intro _
      exact ⟨_, rfl⟩

/-- Witness of C8: the maximum length, `h = 0xFF` and `l = 0xFF`, on a freshly
created struct, gives `expected_octets = 65535` and a block of 65535 bytes. -/
theorem C8_length_decoding_witness :
    (step_len2 (fun _ => 170) [255, 255]
        (step_len1 [255, 255] ⟨sample_fresh, 0, 2, [], []⟩)).state.p_dm_query.len1 = 255 ∧
      (step_len2 (fun _ => 170) [255, 255]
        (step_len1 [255, 255] ⟨sample_fresh, 0, 2, [], []⟩)).state.p_dm_query.len2 = 255 ∧
      (step_len2 (fun _ => 170) [255, 255]
        (step_len1 [255, 255] ⟨sample_fresh, 0, 2, [], []⟩)).state.p_dm_query.expected_octets
        = (255 <<< 8) ||| 255 ∧
      (step_len2 (fun _ => 170) [255, 255]
        (step_len1 [255, 255] ⟨sample_fresh, 0, 2, [], []⟩)).state.p_dm_query.expected_octets
        = 256 * 255 + 255 ∧
      (step_len2 (fun _ => 170) [255, 255]
        (step_len1 [255, 255] ⟨sample_fresh, 0, 2, [], []⟩)).state.p_dm_query.expected_octets
        ≤ 65535 ∧
      (alloc_ok (read_state.mk sample_fresh 0 2 [] []).p_dm_query.query (256 * 255 + 255) →
        ∃ s2, step_len2 (fun _ => 170) [255, 255]
            (step_len1 [255, 255] ⟨sample_fresh, 0, 2, [], []⟩) = outcome.ok s2 ∧
          s2.p_dm_query.query.map List.length = some (256 * 255 + 255)) ∧
      (¬ alloc_ok (read_state.mk sample_fresh 0 2 [] []).p_dm_query.query (256 * 255 + 255) →
        ∃ s2, step_len2 (fun _ => 170) [255, 255]
            (step_len1 [255, 255] ⟨sample_fresh, 0, 2, [], []⟩) = outcome.died s2) :=
  C8_length_decoding (fun _ => 170) [255, 255] ⟨sample_fresh, 0, 2, [], []⟩
    255 255 [] rfl rfl rfl (by decide) (by decide)

/-- C9 (fault containment). In phase `DNSOVERTLS_ERROR`, for every chunk and
every count of available octets, `dnsovertls_read` returns at once: the struct
is unchanged in every field, nothing is read and nothing is dispatched. -/
theorem C9_fault_containment (junk : Nat → Nat) (fuel : Nat) (p : dm_query_t) (buf : List Nat)
    (octets_available : Nat) (he : p.status = DNSOVERTLS_ERROR) :
    dnsovertls_read junk fuel p buf octets_available
      = some (outcome.ok ⟨p, 0, octets_available, [], []⟩) := by
  simp [dnsovertls_read, he]

/-- Witness of C9: a faulted struct that holds a partial message, no fuel at
all, and a chunk that would otherwise complete the message. -/
theorem C9_fault_containment_witness :
    dnsovertls_read (fun _ => 170) 0 ⟨some [1, 0, 0], 1, 0, 0, DNSOVERTLS_ERROR, 3, 0, 3⟩
        [2, 3, 0, 0] 4
      = some (outcome.ok
          ⟨⟨some [1, 0, 0], 1, 0, 0, DNSOVERTLS_ERROR, 3, 0, 3⟩, 0, 4, [], []⟩) :=
  C9_fault_containment (fun _ => 170) 0 ⟨some [1, 0, 0], 1, 0, 0, DNSOVERTLS_ERROR, 3, 0, 3⟩
    [2, 3, 0, 0] 4 rfl

/-- C10 (outbound length octets round trip). For a response length
`n ≤ 65535`, `dnsovertls_write` computes `len1 = n / 256` and `len2 = n % 256`,
the big-endian encoding of `n`; and the two length steps of the reader, fed
`len1` then `len2` from `DNSOVERTLS_WAITING_LEN1`, set `expected_octets = n`. -/
theorem C10_length_octets_round_trip (junk : Nat → Nat) (response : List Nat) (n : Nat)
    (p0 : dm_query_t) (hn : n ≤ 65535) (h0 : p0.status = DNSOVERTLS_WAITING_LEN1) :
    (dnsovertls_write response n).len1 = n / 256 ∧
      (dnsovertls_write response n).len2 = n % 256 ∧
      256 * (dnsovertls_write response n).len1 + (dnsovertls_write response n).len2 = n ∧
      (step_len2 junk [(dnsovertls_write response n).len1, (dnsovertls_write response n).len2]
        (step_len1 [(dnsovertls_write response n).len1, (dnsovertls_write response n).len2]
          ⟨p0, 0, 2, [], []⟩)).state.p_dm_query.expected_octets = n := by
  have e1 : (dnsovertls_write response n).len1 = n / 256 := by
    simp only [dnsovertls_write, and_255, shr_8]
    omega
  have e2 : (dnsovertls_write response n).len2 = n % 256 := by
    simp only [dnsovertls_write, and_255]
    omega
  refine ⟨e1, e2, by rw [e1, e2]; omega, ?_⟩
  rw [e1, e2]
  have h1 := step_len1_recv junk [n / 256, n % 256] p0 0 (n / 256) [n % 256] [] [] h0 rfl
  have e0 : recv junk p0 [] = p0 := rfl
  simp only [List.length_cons, List.length_nil, e0, List.nil_append, Nat.zero_add] at h1
  rw [h1]
  by_cases hok : alloc_ok p0.query (expected_of (n / 256) (n % 256))
  · have h2 := step_len2_recv junk [n / 256, n % 256] p0 1 (n / 256) (n % 256) [] []
      [n / 256] rfl hok
    simp only [List.length_nil, Nat.zero_add] at h2
    rw [h2]
    exact expected_of_frame n hn
  · have h2 := step_len2_null junk [n / 256, n % 256] p0 1 (n / 256) (n % 256) [] []
      [n / 256] rfl hok
    have hz : expected_of (n / 256) (n % 256) = 0 := by
      by_contra hne
      exact hok (Or.inr hne)
    simp only [List.length_nil, Nat.zero_add] at h2
    rw [h2]
    show 0 = n
    rw [← hz]
    exact expected_of_frame n hn

/-- Witness of C10: the response length 0x1234. -/
theorem C10_length_octets_round_trip_witness :
    (dnsovertls_write [] 4660).len1 = 4660 / 256 ∧
      (dnsovertls_write [] 4660).len2 = 4660 % 256 ∧
      256 * (dnsovertls_write [] 4660).len1 + (dnsovertls_write [] 4660).len2 = 4660 ∧
      (step_len2 (fun _ => 170) [(dnsovertls_write [] 4660).len1, (dnsovertls_write [] 4660).len2]
        (step_len1 [(dnsovertls_write [] 4660).len1, (dnsovertls_write [] 4660).len2]
          ⟨sample_fresh, 0, 2, [], []⟩)).state.p_dm_query.expected_octets = 4660 :=
  C10_length_octets_round_trip (fun _ => 170) [] 4660 sample_fresh (by decide) rfl

/-- C11 as stated fails: for a client with an open socket and every resource
allocated, `closeAndFreeClient` frees the bufferevent and the event base
first, then the output buffer, and the TLS client last, which is not the order
TLS handle, buffer, reactor resources. -/
theorem C11_teardown_order_counterexample :
    (closeAndFreeClient (some sample_client)).2
        = [release_call.close 7, release_call.bufferevent_free 3,
            release_call.event_base_free 2, release_call.evbuffer_free 4,
            release_call.ssl_client_cleanup 5, release_call.free_ssl_client 5,
            release_call.free_client] ∧
      (closeAndFreeClient (some sample_client)).2.filter
          (fun call => decide (call ∈ teardown_as_specified sample_client))
        ≠ teardown_as_specified sample_client := by
  decide

/-- C11 as amended. For every client, `closeAndFreeClient` closes the socket
when it is still open, then frees the bufferevent, the event base, the output
buffer, then cleans up and frees the TLS client, and frees the struct last;
each resource that is present is released by exactly one call and its pointer
is cleared. `closeClient` on a client it has already closed, or on any client
with `fd = -1`, closes no descriptor and leaves the client unchanged.
`dm_query_free` is not called by the teardown; on its own it frees the query
block first, when there is one, and then the struct, each once. -/
theorem C11_teardown_in_source_order (c : client_t) (p : dm_query_t) :
    (closeAndFreeClient (some c)).2 = teardown_in_source c ∧
      (teardown_in_source c).Nodup ∧
      (closeAndFreeClient (some c)).1
        = some { fd := if 0 ≤ c.fd then -1 else c.fd
                 evbase := none
                 buf_ev := none
                 output_buffer := none
                 cb_read_count := c.cb_read_count
                 p_ssl_client := none } ∧
      closeClient (closeClient (some c)).1 = ((closeClient (some c)).1, []) ∧
      closeClient (some { c with fd := -1 }) = (some { c with fd := -1 }, []) ∧
      dm_query_free (some p)
        = (if p.query.isSome then [release_call.free_query] else [])
          ++ [release_call.free_dm_query] := by
  obtain ⟨fd, e, b, o, n, s⟩ := c
  refine ⟨?_, ?_, ?_, ?_, ?_, ?_⟩
  · cases e <;> cases b <;> cases o <;> cases s <;> by_cases h : 0 ≤ fd <;>
      simp [closeAndFreeClient, closeClient, teardown_in_source, h]
  · cases e <;> cases b <;> cases o <;> cases s <;> by_cases h : 0 ≤ fd <;>
      simp [teardown_in_source, h]
  · cases e <;> cases b <;> cases o <;> cases s <;> by_cases h : 0 ≤ fd <;>
      simp [closeAndFreeClient, closeClient, h]
  · by_cases h : 0 ≤ fd <;> simp [closeClient, h]
  · simp [closeClient]
  · cases hq : p.query <;> simp [dm_query_free, hq]

/-- C12 (accumulation-bound invariant). The predicate
`0 ≤ query_len ≤ expected_octets ≤ 65535` holds for a freshly created struct,
holds after `dm_query_reset`, and is kept by every call of `dnsovertls_read`,
for any chunk and any count of available octets, from any struct that
satisfies it and whose `unsigned char` field `len1` is in range: it holds in
the struct the call leaves, when it returns and also when it ends in `die`; so
it holds for every reachable struct. In every pass of the loop the struct that
enters the body step has `query_len ≤ expected_octets`, so the subtraction
`expected_octets - query_len` does not wrap around. -/
theorem C12_accumulation_bound (junk : Nat → Nat) (fuel : Nat) (mem : dm_query_t) (ssl : Nat)
    (p0 p q : dm_query_t) (buf : List Nat) (n : Nat) (e : outcome) (k : Nat)
    (hnew : dm_query_new mem ssl = some p0)
    (hb : accumulation_bound p) (hl : p.len1 < 256)
    (hr : dnsovertls_read junk fuel p buf n = some e) (hq : reachable q) :
    accumulation_bound p0 ∧
      accumulation_bound (dm_query_reset p) ∧
      accumulation_bound e.state.p_dm_query ∧ e.state.p_dm_query.len1 < 256 ∧
      accumulation_bound q ∧
      (step_len2 junk buf (step_len1 buf
          ((fun x => (loop_body junk buf x).state)^[k]
            ⟨p, 0, n, [], []⟩))).state.p_dm_query.query_len
        ≤ (step_len2 junk buf (step_len1 buf
          ((fun x => (loop_body junk buf x).state)^[k]
            ⟨p, 0, n, [], []⟩))).state.p_dm_query.expected_octets ∧
      size_sub
          (step_len2 junk buf (step_len1 buf
            ((fun x => (loop_body junk buf x).state)^[k]
              ⟨p, 0, n, [], []⟩))).state.p_dm_query.expected_octets
          (step_len2 junk buf (step_len1 buf
            ((fun x => (loop_body junk buf x).state)^[k]
              ⟨p, 0, n, [], []⟩))).state.p_dm_query.query_len
        = (step_len2 junk buf (step_len1 buf
            ((fun x => (loop_body junk buf x).state)^[k]
              ⟨p, 0, n, [], []⟩))).state.p_dm_query.expected_octets
          - (step_len2 junk buf (step_len1 buf
            ((fun x => (loop_body junk buf x).state)^[k]
              ⟨p, 0, n, [], []⟩))).state.p_dm_query.query_len := by
  have hr2 := read_bounded junk fuel p buf n e ⟨hb, hl⟩ hr
  have hk := step_len2_bounded junk buf _ (step_len1_bounded buf _
    (iterate_bounded junk buf ⟨p, 0, n, [], []⟩ ⟨hb, hl⟩ k))
  refine ⟨(dm_query_new_bounded mem ssl p0 hnew).1, (dm_query_reset_bounded p).1, hr2.1, hr2.2,
    (reachable_bounded q hq).1, hk.1.1, ?_⟩
  unfold size_sub
  rw [if_pos hk.1.1]

/-- Witness of C12: a struct that holds one of three expected octets reads a
chunk that completes the message and starts the next; the reachable struct is
a freshly created one. -/
theorem C12_accumulation_bound_witness :
    accumulation_bound sample_fresh ∧
      accumulation_bound (dm_query_reset sample_state.p_dm_query) ∧
      accumulation_bound
        (outcome.ok ⟨⟨some [0, 6], 0, 0, 0, DNSOVERTLS_WAITING_QUERY, 2, 0, 2⟩, 4, 0,
          [⟨some [1, 6, 7], 3, 0, 0, DNSOVERTLS_PROCESS_QUERY, 3, 0, 3⟩],
          [6, 7, 0, 2]⟩).state.p_dm_query ∧
      (outcome.ok ⟨⟨some [0, 6], 0, 0, 0, DNSOVERTLS_WAITING_QUERY, 2, 0, 2⟩, 4, 0,
          [⟨some [1, 6, 7], 3, 0, 0, DNSOVERTLS_PROCESS_QUERY, 3, 0, 3⟩],
          [6, 7, 0, 2]⟩).state.p_dm_query.len1 < 256 ∧
      accumulation_bound sample_fresh ∧
      (step_len2 (fun _ => 170) [6, 7, 0, 2] (step_len1 [6, 7, 0, 2]
          ((fun x => (loop_body (fun _ => 170) [6, 7, 0, 2] x).state)^[1]
            ⟨sample_state.p_dm_query, 0, 4, [], []⟩))).state.p_dm_query.query_len
        ≤ (step_len2 (fun _ => 170) [6, 7, 0, 2] (step_len1 [6, 7, 0, 2]
          ((fun x => (loop_body (fun _ => 170) [6, 7, 0, 2] x).state)^[1]
            ⟨sample_state.p_dm_query, 0, 4, [], []⟩))).state.p_dm_query.expected_octets ∧
      size_sub
          (step_len2 (fun _ => 170) [6, 7, 0, 2] (step_len1 [6, 7, 0, 2]
            ((fun x => (loop_body (fun _ => 170) [6, 7, 0, 2] x).state)^[1]
              ⟨sample_state.p_dm_query, 0, 4, [], []⟩))).state.p_dm_query.expected_octets
          (step_len2 (fun _ => 170) [6, 7, 0, 2] (step_len1 [6, 7, 0, 2]
            ((fun x => (loop_body (fun _ => 170) [6, 7, 0, 2] x).state)^[1]
              ⟨sample_state.p_dm_query, 0, 4, [], []⟩))).state.p_dm_query.query_len
        = (step_len2 (fun _ => 170) [6, 7, 0, 2] (step_len1 [6, 7, 0, 2]
            ((fun x => (loop_body (fun _ => 170) [6, 7, 0, 2] x).state)^[1]
              ⟨sample_state.p_dm_query, 0, 4, [], []⟩))).state.p_dm_query.expected_octets
          - (step_len2 (fun _ => 170) [6, 7, 0, 2] (step_len1 [6, 7, 0, 2]
            ((fun x => (loop_body (fun _ => 170) [6, 7, 0, 2] x).state)^[1]
              ⟨sample_state.p_dm_query, 0, 4, [], []⟩))).state.p_dm_query.query_len :=
  C12_accumulation_bound (fun _ => 170) 5 sample_mem 6 sample_fresh sample_state.p_dm_query
    sample_fresh [6, 7, 0, 2] 4
    (outcome.ok ⟨⟨some [0, 6], 0, 0, 0, DNSOVERTLS_WAITING_QUERY, 2, 0, 2⟩, 4, 0,
      [⟨some [1, 6, 7], 3, 0, 0, DNSOVERTLS_PROCESS_QUERY, 3, 0, 3⟩], [6, 7, 0, 2]⟩) 1
    rfl (by decide) (by decide) (by decide) (reachable.fresh sample_mem 6 sample_fresh rfl)

/-- C14 (echo chunking). For a buffer size `B = DEFAULT_BUF_SIZE > 9` and an
input of `len` octets, the loop of `do_libevent_echo` ends once the fuel
reaches `len`, and hands `send_unencrypted_bytes` exactly
`ceil (len / (B - 9))` records in order; each record is `"Echo: "`, a nonempty
slice of at most `B - 9` input octets, CR and LF, so it is `slice + 8 ≤ B - 1`
octets long and fits the local array; the slices in order concatenate to the
input. -/
theorem C14_echo_chunking (junk : Nat → Nat) (B fuel ssl : Nat) (buf : List Nat)
    (hB : 9 < B) (hf : buf.length ≤ fuel) :
    ∃ (s : echo_state) (slices : List (List Nat)),
      do_libevent_echo junk B fuel ssl buf buf.length = some s ∧ s.len = 0 ∧
      s.sent = slices.map (fun sl => (ssl, echo_text ++ sl ++ [13, 10])) ∧
      slices.flatten = buf ∧
      s.sent.length = (buf.length + (B - 9) - 1) / (B - 9) ∧
      ∀ sl ∈ slices, 0 < sl.length ∧ sl.length ≤ B - 9 ∧
        (echo_text ++ sl ++ [13, 10]).length = sl.length + 8 ∧ sl.length + 8 ≤ B - 1 := by
  obtain ⟨s, slices, h1, h2, h3, h4, h5, h6⟩ := echo_loop_spec B ssl buf hB fuel
    ⟨buf.length, 0, 0, (List.range B).map junk, []⟩ (by simp) (by simp) hf
  refine ⟨s, slices, h1, h2, by simpa using h3, by simpa using h4, ?_, ?_⟩
  · rw [h3]
    simpa using h5
  · intro sl hsl
    obtain ⟨a, b⟩ := h6 sl hsl
    refine ⟨a, b, ?_, by omega⟩
    simp [echo_text]

/-- Witness of C14: seven octets through a twelve-octet array, three octets
per record. -/
theorem C14_echo_chunking_witness :
    ∃ (s : echo_state) (slices : List (List Nat)),
      do_libevent_echo (fun _ => 170) 12 7 5 [1, 2, 3, 4, 5, 6, 7] [1, 2, 3, 4, 5, 6, 7].length
        = some s ∧ s.len = 0 ∧
      s.sent = slices.map (fun sl => (5, echo_text ++ sl ++ [13, 10])) ∧
      slices.flatten = [1, 2, 3, 4, 5, 6, 7] ∧
      s.sent.length = ([1, 2, 3, 4, 5, 6, 7].length + (12 - 9) - 1) / (12 - 9) ∧
      ∀ sl ∈ slices, 0 < sl.length ∧ sl.length ≤ 12 - 9 ∧
        (echo_text ++ sl ++ [13, 10]).length = sl.length + 8 ∧ sl.length + 8 ≤ 12 - 1 :=
  C14_echo_chunking (fun _ => 170) 12 7 5 [1, 2, 3, 4, 5, 6, 7] (by decide) (by decide)

end DnsOverTls
